import Mathlib

/-!
Verification of the SNI proxy's TLS ClientHello handling (`src/main.rs`).

Shallow embedding conventions:

* Bytes are modelled as `Nat`; a client connection's byte stream is the
  `List Nat` of all bytes the client will send before closing its write side.
* The Rust `TlsHandshakeReader` holds an async `source` plus a growing
  `buffer` and two cursors.  Here the unread part of the stream is the
  `source` field, and `fill_to` moves bytes from `source` to `buffer`.
  `read_buf` is modelled as delivering exactly the bytes still needed
  (a legal schedule: TCP may deliver one byte per poll).  End of stream
  during a fill is a decode error, exactly as `fill_to` in the source
  treats `read_buf` returning 0.
* Fallible operations return `Except TlsError`, mirroring `TlsResult`.
* Wall-clock time is modelled by annotating the environment with the
  duration, in seconds, of each awaited phase; `tokio::time::timeout(d, f)`
  returns `Elapsed` exactly when `f`'s duration exceeds `d`, and the
  `From<Elapsed>` instance maps that to `UserCanceled`.
* Filesystem and backend-socket behaviour is an environment: the result of
  `UnixStream::connect(<name>/tls-socket)` and the existence of
  `<name>/send-proxy-v1`, both keyed by the canonical name.
-/

/-- The `TlsError` enum of `src/main.rs`; discriminants are the TLS alert
descriptions. -/
inductive TlsError
  | UnexpectedMessage
  | RecordOverflow
  | DecodeError
  | InternalError
  | UserCanceled
  | UnrecognizedName
deriving DecidableEq, Repr

/-- The numeric discriminant of each `TlsError` variant (`e as u8`). -/
def TlsError.code : TlsError → Nat
  | .UnexpectedMessage => 10
  | .RecordOverflow => 22
  | .DecodeError => 50
  | .InternalError => 80
  | .UserCanceled => 90
  | .UnrecognizedName => 112

deriving instance DecidableEq for Except

/-- `check_length` (main.rs:58): `limit.checked_sub(length)`, underflow is a
decode error. -/
def check_length (length limit : Nat) : Except TlsError Nat :=
  if length ≤ limit then .ok (limit - length) else .error .DecodeError

/-- The state of `TlsHandshakeReader` (main.rs:51).  `source` is the not yet
delivered remainder of the client stream; `buffer`, `offset`, `limit` are the
struct fields. -/
structure TlsHandshakeReader where
  source : List Nat
  buffer : List Nat
  offset : Nat
  limit : Nat
deriving DecidableEq, Repr

namespace TlsHandshakeReader

/-- `TlsHandshakeReader::new` (main.rs:64): empty buffer, both cursors 0. -/
def new (stream : List Nat) : TlsHandshakeReader :=
  { source := stream, buffer := [], offset := 0, limit := 0 }

/-- `fill_to` (main.rs:78): read from the source until `buffer.len() ≥ target`.
End of stream first is a decode error.  The buffer only ever grows by bytes
of the stream, in order. -/
def fill_to (buffer source : List Nat) (target : Nat) :
    Except TlsError (List Nat × List Nat) :=
  if target ≤ buffer.length then .ok (buffer, source)
  else if target - buffer.length ≤ source.length then
    .ok (buffer ++ source.take (target - buffer.length),
         source.drop (target - buffer.length))
  else .error .DecodeError

/-- The record length read from a header at `limit`:
`(buffer[limit+3] << 8) | buffer[limit+4]` (main.rs:98). -/
def record_length (buffer : List Nat) (limit : Nat) : Nat :=
  ((buffer.getD (limit + 3) 0) <<< 8) ||| (buffer.getD (limit + 4) 0)

/-- The record-header validation of `read` (main.rs:94-111): content type must
be 0x16 = 22, a zero length is a decode error, a length over `2^14` is a
record overflow; `buffer[limit+1]` and `buffer[limit+2]` (legacy_version) are
not inspected. -/
def record_check (buffer : List Nat) (limit : Nat) : Except TlsError Nat :=
  if buffer.getD limit 0 ≠ 22 then .error .UnexpectedMessage
  else
    let length := record_length buffer limit
    if length = 0 then .error .DecodeError
    else if 2 ^ 14 < length then .error .RecordOverflow
    else .ok length

/-- The `while self.offset >= self.limit` loop of `read` (main.rs:88-115):
repeatedly buffer the next 5-byte record header at `limit`, validate it, and
advance `offset` by 5 and `limit` by `5 + length`. -/
def read_records (s : TlsHandshakeReader) : Except TlsError TlsHandshakeReader :=
  if h : s.limit ≤ s.offset then
    match fill_to s.buffer s.source (s.limit + 5) with
    | .error e => .error e
    | .ok (buf, src) =>
      match hrec : record_check buf s.limit with
      | .error e => .error e
      | .ok length =>
        read_records { source := src, buffer := buf,
                       offset := s.offset + 5, limit := s.limit + 5 + length }
  else .ok s
termination_by s.offset + 1 - s.limit
decreasing_by
  simp only [record_check, record_length] at hrec
  split at hrec
  · exact absurd hrec (by simp)
  · split at hrec
    · exact absurd hrec (by simp)
    · split at hrec
      · exact absurd hrec (by simp)
      · simp only [Except.ok.injEq] at hrec
        omega

/-- `read` (main.rs:87-121): skip record headers as needed, then buffer up to
`offset + 1` bytes and return the byte at `offset`, advancing `offset`. -/
def read (s : TlsHandshakeReader) : Except TlsError (Nat × TlsHandshakeReader) :=
  match read_records s with
  | .error e => .error e
  | .ok s =>
    match fill_to s.buffer s.source (s.offset + 1) with
    | .error e => .error e
    | .ok (buf, src) =>
      .ok (buf.getD s.offset 0,
           { source := src, buffer := buf, offset := s.offset + 1, limit := s.limit })

/-- The accumulator loop of `read_length` (main.rs:126-129):
`result = (result << 8) | byte` for each of `n` bytes. -/
def read_length_aux (s : TlsHandshakeReader) (n acc : Nat) :
    Except TlsError (Nat × TlsHandshakeReader) :=
  match n with
  | 0 => .ok (acc, s)
  | Nat.succ m =>
    match read s with
    | .error e => .error e
    | .ok (b, s) => read_length_aux s m ((acc <<< 8) ||| b)

/-- `read_length` (main.rs:123): read `n` bytes as a big-endian integer. -/
def read_length (s : TlsHandshakeReader) (n : Nat) :
    Except TlsError (Nat × TlsHandshakeReader) :=
  read_length_aux s n 0

/-- `seek` (main.rs:73-76): advance `offset` by `offset_delta` and charge it to
the caller's length budget via `check_length`. -/
def seek (s : TlsHandshakeReader) (offset_delta lim : Nat) :
    Except TlsError (TlsHandshakeReader × Nat) :=
  match check_length offset_delta lim with
  | .error e => .error e
  | .ok lim2 => .ok ({ s with offset := s.offset + offset_delta }, lim2)

/-- `into_source` (main.rs:133-136): write the whole accumulated `buffer` to
the backend and hand back the underlying source.  Returns (bytes written,
remaining source). -/
def into_source (s : TlsHandshakeReader) : List Nat × List Nat :=
  (s.buffer, s.source)

end TlsHandshakeReader

/-- `u8::to_ascii_lowercase` on a byte. -/
def to_ascii_lowercase (b : Nat) : Nat :=
  if 65 ≤ b ∧ b ≤ 90 then b + 32 else b

/-- The host-name validation loop of `get_server_name` (main.rs:233-250): read
`n` bytes, fold to lowercase, reject a '-' or '.' at a label start, accept only
bytes in [a-z0-9.-], and track whether the next byte would start a label.
Returns the accumulated name, the final start-of-label flag, and the reader. -/
def read_name (s : TlsHandshakeReader) (n : Nat) (name : List Nat)
    (start_of_label : Bool) :
    Except TlsError (List Nat × Bool × TlsHandshakeReader) :=
  match n with
  | 0 => .ok (name, start_of_label, s)
  | Nat.succ m =>
    match TlsHandshakeReader.read s with
    | .error e => .error e
    | .ok (b0, s) =>
      let b := to_ascii_lowercase b0
      if start_of_label ∧ (b = 45 ∨ b = 46) then .error .UnrecognizedName
      else if (97 ≤ b ∧ b ≤ 122) ∨ (48 ≤ b ∧ b ≤ 57) ∨ b = 45 ∨ b = 46 then
        read_name s m (name ++ [b]) (b = 46)
      else .error .UnrecognizedName

/-- The `while length > 0` loop over server_name entries (main.rs:206-261).
Budget checks (`check_length`, `seek`) are inlined as subtraction guards with
underflow mapping to `DecodeError`.  Falling out of the loop without a
host_name entry reaches the `break` and then `Err(UnrecognizedName)`
(main.rs:266-271). -/
def server_name_list (s : TlsHandshakeReader) (length : Nat) :
    Except TlsError (List Nat × TlsHandshakeReader) :=
  if length = 0 then .error .UnrecognizedName
  else if 3 ≤ length then
    match TlsHandshakeReader.read s with
    | .error e => .error e
    | .ok (name_type, s) =>
      match TlsHandshakeReader.read_length s 2 with
      | .error e => .error e
      | .ok (name_length, s) =>
        if name_type ≠ 0 then
          -- seek(name_length, &mut length)
          if name_length ≤ length - 3 then
            server_name_list { s with offset := s.offset + name_length }
              (length - 3 - name_length)
          else .error .DecodeError
        else
          -- check_length(name_length, &mut length)
          if name_length ≤ length - 3 then
            if 254 < name_length then .error .UnrecognizedName
            else
              match read_name s name_length [] true with
              | .error e => .error e
              | .ok (name, start_of_label, s) =>
                if start_of_label then .error .UnrecognizedName
                else .ok (name, s)
          else .error .DecodeError
  else .error .DecodeError
termination_by length
decreasing_by omega

/-- The `while hello_length > 0` loop over extensions (main.rs:188-267), with
budget checks inlined as in `server_name_list`.  `hello_length = 0` is the
fall-through to `Err(UnrecognizedName)` (main.rs:271). -/
def extensions_loop (s : TlsHandshakeReader) (hello_length : Nat) :
    Except TlsError (List Nat × TlsHandshakeReader) :=
  if hello_length = 0 then .error .UnrecognizedName
  else if 4 ≤ hello_length then
    match TlsHandshakeReader.read_length s 2 with
    | .error e => .error e
    | .ok (extension, s) =>
      match TlsHandshakeReader.read_length s 2 with
      | .error e => .error e
      | .ok (length, s) =>
        if extension ≠ 0 then
          -- seek(length, &mut hello_length)
          if length ≤ hello_length - 4 then
            extensions_loop { s with offset := s.offset + length }
              (hello_length - 4 - length)
          else .error .DecodeError
        else
          -- check_length(length, &mut hello_length)
          if length ≤ hello_length - 4 then
            -- check_length(2, &mut length); the extension ends right after
            -- server_name_list, so its length field must equal the remainder
            if 2 ≤ length then
              match TlsHandshakeReader.read_length s 2 with
              | .error e => .error e
              | .ok (v, s) =>
                if length - 2 ≠ v then .error .DecodeError
                else server_name_list s (length - 2)
            else .error .DecodeError
          else .error .DecodeError
  else .error .DecodeError
termination_by hello_length
decreasing_by omega

/-- `get_server_name` (main.rs:139-272).  Returns the validated server-name
bytes (the Rust code wraps exactly these bytes in a `String`) and the final
reader state. -/
def get_server_name (s : TlsHandshakeReader) :
    Except TlsError (List Nat × TlsHandshakeReader) :=
  match TlsHandshakeReader.read s with
  | .error e => .error e
  | .ok (b, s) =>
    if b ≠ 1 then .error .UnexpectedMessage
    else
      match TlsHandshakeReader.read_length s 3 with
      | .error e => .error e
      | .ok (hello_length, s) =>
        -- skip legacy_version (2) and random (32)
        match TlsHandshakeReader.seek s 34 hello_length with
        | .error e => .error e
        | .ok (s, hello_length) =>
          -- skip legacy_session_id
          match check_length 1 hello_length with
          | .error e => .error e
          | .ok hello_length =>
            match TlsHandshakeReader.read_length s 1 with
            | .error e => .error e
            | .ok (length, s) =>
              match TlsHandshakeReader.seek s length hello_length with
              | .error e => .error e
              | .ok (s, hello_length) =>
                -- skip cipher_suites
                match check_length 2 hello_length with
                | .error e => .error e
                | .ok hello_length =>
                  match TlsHandshakeReader.read_length s 2 with
                  | .error e => .error e
                  | .ok (length, s) =>
                    match TlsHandshakeReader.seek s length hello_length with
                    | .error e => .error e
                    | .ok (s, hello_length) =>
                      -- skip legacy_compression_methods
                      match check_length 1 hello_length with
                      | .error e => .error e
                      | .ok hello_length =>
                        match TlsHandshakeReader.read_length s 1 with
                        | .error e => .error e
                        | .ok (length, s) =>
                          match TlsHandshakeReader.seek s length hello_length with
                          | .error e => .error e
                          | .ok (s, hello_length) =>
                            -- no extensions block: treat as unrecognized name
                            if hello_length = 0 then .error .UnrecognizedName
                            else
                              match check_length 2 hello_length with
                              | .error e => .error e
                              | .ok hello_length =>
                                match TlsHandshakeReader.read_length s 2 with
                                | .error e => .error e
                                | .ok (v, s) =>
                                  if hello_length ≠ v then .error .DecodeError
                                  else extensions_loop s hello_length

/-- The Name Canonicalizer loop (main.rs:233-256) extracted over the entry's
byte slice: the body of the `for _ in 0..name_length` loop with
`source.read()` replaced by taking the next byte of the slice, plus the final
start-of-label check (main.rs:254-256). -/
def canonicalize_from (bytes : List Nat) (name : List Nat)
    (start_of_label : Bool) : Except TlsError (List Nat) :=
  match bytes with
  | [] => if start_of_label then .error .UnrecognizedName else .ok name
  | b0 :: rest =>
    let b := to_ascii_lowercase b0
    if start_of_label ∧ (b = 45 ∨ b = 46) then .error .UnrecognizedName
    else if (97 ≤ b ∧ b ≤ 122) ∨ (48 ≤ b ∧ b ≤ 57) ∨ b = 45 ∨ b = 46 then
      canonicalize_from rest (name ++ [b]) (b = 46)
    else .error .UnrecognizedName

/-- The Name Canonicalizer (spec §4.3; main.rs:224-260): the length-254 cap
followed by the validation loop, applied to a host_name entry's bytes. -/
def canonicalize (bytes : List Nat) : Except TlsError (List Nat) :=
  if 254 < bytes.length then .error .UnrecognizedName
  else canonicalize_from bytes [] true

/-- `std::io::ErrorKind`, restricted to the cases `connect_backend`
distinguishes (main.rs:297-301). -/
inductive IoErrorKind
  | NotFound
  | PermissionDenied
  | ConnectionRefused
  | Other
deriving DecidableEq, Repr

/-- The `map_err` closure on `UnixStream::connect` (main.rs:297-302). -/
def backend_error (k : IoErrorKind) : TlsError :=
  match k with
  | .NotFound => .UnrecognizedName
  | .PermissionDenied => .UnrecognizedName
  | .ConnectionRefused => .UnrecognizedName
  | .Other => .InternalError

/-- A socket address: the address family plus the canonical textual form of
the IP (as produced by `Display for IpAddr`) and the port. -/
inductive SocketAddr
  | V4 (ip : String) (port : Nat)
  | V6 (ip : String) (port : Nat)
deriving DecidableEq, Repr

/-- The canonical textual form of the address's IP. -/
def SocketAddr.ipText : SocketAddr → String
  | .V4 ip _ => ip
  | .V6 ip _ => ip

/-- The address's port. -/
def SocketAddr.port : SocketAddr → Nat
  | .V4 _ p => p
  | .V6 _ p => p

/-- The PROXY protocol v1 line built by `connect_backend` (main.rs:310-320):
`format!("PROXY {} {} {} {} {}\r\n", proto, remote.ip(), local.ip(),
remote.port(), local.port())`. -/
def proxy_header (remote loc : SocketAddr) : String :=
  "PROXY " ++
    (match remote with
     | .V4 _ _ => "TCP4"
     | .V6 _ _ => "TCP6") ++
    " " ++ remote.ipText ++ " " ++ loc.ipText ++ " " ++
    toString remote.port ++ " " ++ toString loc.port ++ "\r\n"

/-- The UTF-8 bytes of an ASCII string (all strings built here are ASCII). -/
def strBytes (s : String) : List Nat := s.data.map Char.toNat

/-- The environment of one connection: backend/filesystem behaviour keyed by
the canonical name, whether each backend write fails, and the wall-clock
duration in seconds of each awaited phase. -/
structure Env where
  /-- Result of `UnixStream::connect(<name>/tls-socket)`: `none` is success. -/
  connectResult : List Nat → Option IoErrorKind
  /-- Whether `std::fs::metadata(<name>/send-proxy-v1)` succeeds. -/
  sendProxyV1 : List Nat → Bool
  /-- Whether `write_all` of the PROXY header to the backend fails. -/
  proxyWriteFails : Bool
  /-- Whether `write_all` of the buffered bytes (`into_source`) fails. -/
  replayWriteFails : Bool
  /-- Seconds taken by `get_server_name` (including client I/O waits). -/
  parseSecs : Nat
  /-- Seconds taken by `UnixStream::connect`. -/
  dialSecs : Nat
  /-- Seconds taken by the backend writes (header and replay). -/
  writeSecs : Nat

/-- `connect_backend` (main.rs:274-327).  `timeout(Duration::from_secs(10), ...)`
wraps only `get_server_name`; its expiry converts to `UserCanceled` via
`From<Elapsed>` (main.rs:43-47).  I/O errors convert to `InternalError` via
`From<Error>` (main.rs:37-41).  On success returns the remaining client
source and the bytes written to the backend (PROXY header, if requested,
followed by the whole buffer written by `into_source`). -/
def connect_backend (stream : List Nat) (loc remote : SocketAddr) (env : Env) :
    Except TlsError (List Nat × List Nat) :=
  let source := TlsHandshakeReader.new stream
  if 10 < env.parseSecs then .error .UserCanceled
  else
    match get_server_name source with
    | .error e => .error e
    | .ok (name, source) =>
      match env.connectResult name with
      | some k => .error (backend_error k)
      | none =>
        -- After this point, all I/O errors are internal errors.
        if env.sendProxyV1 name then
          if env.proxyWriteFails then .error .InternalError
          else if env.replayWriteFails then .error .InternalError
          else .ok (source.source,
                    strBytes (proxy_header remote loc) ++ source.buffer)
        else if env.replayWriteFails then .error .InternalError
        else .ok (source.source, source.buffer)

/-- The 7-byte fatal alert written by `handle_connection` (main.rs:337-348):
content type 21, legacy version 3.3, length 0.2, level fatal 2, then the
error's discriminant. -/
def alertBytes (e : TlsError) : List Nat :=
  [21, 3, 3, 0, 2, 2, TlsError.code e]

/-- What `handle_connection` did to the client connection: the bytes it wrote
to the client during the handshake phase, and whether it reached the
bidirectional splice. -/
structure HandlerOutcome where
  clientWritten : List Nat
  spliced : Bool
deriving DecidableEq, Repr

/-- `handle_connection` (main.rs:329-370) up to the splice.  On a
handshake-phase failure the handler writes the alert once with `let _ = ...`
(the write's own success, `alertWriteOk`, is ignored) and returns without a
backend; on success it proceeds to the two copy loops (not modelled beyond
the fact that they run). -/
def handle_connection (stream : List Nat) (loc remote : SocketAddr) (env : Env)
    (alertWriteOk : Bool) : HandlerOutcome :=
  match connect_backend stream loc remote env with
  | .error e => { clientWritten := alertBytes e, spliced := false }
  | .ok _ => { clientWritten := [], spliced := true }

/-! ## Specification-side definitions

These follow the words of the specification and the claims, for comparison
with the definitions above, which follow the source. -/

/-- A byte admissible in a canonical name, per the spec: `[a-z0-9.-]`. -/
def allowedByte (b : Nat) : Prop :=
  (97 ≤ b ∧ b ≤ 122) ∨ (48 ≤ b ∧ b ≤ 57) ∨ b = 45 ∨ b = 46

instance (b : Nat) : Decidable (allowedByte b) := by
  unfold allowedByte; infer_instance

/-- The lowercase folding of a host name, per the spec: uppercase ASCII folded
to lowercase before validation. -/
def folded (bytes : List Nat) : List Nat := bytes.map to_ascii_lowercase

/-- Spec: a label boundary of `l` is position 0 or the position immediately
after a '.' (byte 46). -/
def labelBoundary (l : List Nat) (i : Nat) : Prop :=
  i = 0 ∨ (0 < i ∧ l.getD (i - 1) 0 = 46)

instance (l : List Nat) (i : Nat) : Decidable (labelBoundary l i) := by
  unfold labelBoundary; infer_instance

/-- Claim C5's characterization of a valid host_name entry: at most 254 bytes;
after lowercase folding every byte is in `[a-z0-9.-]`; no byte at a label
boundary is '.' or '-'; and the name does not end at a label boundary. -/
def goodName (bytes : List Nat) : Prop :=
  bytes.length ≤ 254 ∧
  (∀ i < bytes.length, allowedByte ((folded bytes).getD i 0)) ∧
  (∀ i < bytes.length, labelBoundary (folded bytes) i →
    (folded bytes).getD i 0 ≠ 46 ∧ (folded bytes).getD i 0 ≠ 45) ∧
  ¬ labelBoundary (folded bytes) bytes.length

instance (bytes : List Nat) : Decidable (goodName bytes) := by
  unfold goodName; infer_instance

/-- The per-suffix validity predicate behind `goodName`: the claim's
conditions on the remaining bytes of a name when the incoming boundary flag
is `start` (position 0 of the suffix is a label boundary iff `start`).
Used to characterize the canonicalizer loop by induction. -/
def goodFrom (bytes : List Nat) (start : Bool) : Prop :=
  (∀ i < bytes.length, allowedByte ((folded bytes).getD i 0)) ∧
  (∀ i < bytes.length,
    ((i = 0 ∧ start = true) ∨ (0 < i ∧ (folded bytes).getD (i - 1) 0 = 46)) →
    (folded bytes).getD i 0 ≠ 46 ∧ (folded bytes).getD i 0 ≠ 45) ∧
  ¬ ((bytes.length = 0 ∧ start = true) ∨
     (0 < bytes.length ∧ (folded bytes).getD (bytes.length - 1) 0 = 46))

instance (bytes : List Nat) (start : Bool) : Decidable (goodFrom bytes start) := by
  unfold goodFrom; infer_instance

/-- Claim C8's description of the PROXY v1 line:
`PROXY <PROTO> <src-ip> <dst-ip> <src-port> <dst-port>\r\n` where PROTO is
TCP4 when the remote peer is IPv4 and TCP6 when IPv6, src is the remote peer
endpoint and dst is the local endpoint. -/
def specProxyLine (src dst : SocketAddr) : String :=
  "PROXY " ++
    (match src with
     | .V4 _ _ => "TCP4"
     | .V6 _ _ => "TCP6") ++
    " " ++ src.ipText ++ " " ++ dst.ipText ++ " " ++
    toString src.port ++ " " ++ toString dst.port ++ "\r\n"

/-! ## Record framing

A "legal record fragmentation" of a handshake payload, per TLS 1.3 §5.1 and
claim C1: the payload split into nonempty fragments of at most `2^14` bytes,
each preceded by a 5-byte handshake record header (content type 22, legacy
version 3.3, big-endian length). -/

/-- The 5-byte record header for a fragment of `n` payload bytes. -/
def record_header (n : Nat) : List Nat := [22, 3, 3, n / 256, n % 256]

/-- The wire bytes of a fragmented handshake payload. -/
def frame : List (List Nat) → List Nat
  | [] => []
  | f :: fs => record_header f.length ++ f ++ frame fs

/-- Legality of a fragmentation: every fragment nonempty and at most `2^14`
bytes. -/
def legal_frags (fs : List (List Nat)) : Prop :=
  ∀ f ∈ fs, 1 ≤ f.length ∧ f.length ≤ 2 ^ 14

instance (fs : List (List Nat)) : Decidable (legal_frags fs) := by
  unfold legal_frags; infer_instance

/-- Total payload length of a list of fragments. -/
def sumLen (fs : List (List Nat)) : Nat := (fs.map List.length).sum

/-! ## Abstract handshake-stream parser

The same parser, over the de-framed handshake byte stream: a position `p` in
the payload instead of a reader state.  Reading past the end of the payload
is a `DecodeError`, matching `fill_to` hitting end of stream.  The concrete
parser over any legal framing refines this one (theorems below). -/

/-- Abstract `read`: the next handshake-stream byte. -/
def a_read (payload : List Nat) (p : Nat) : Except TlsError (Nat × Nat) :=
  if p < payload.length then .ok (payload.getD p 0, p + 1)
  else .error .DecodeError

/-- Abstract `read_length_aux`. -/
def a_read_length_aux (payload : List Nat) (p n acc : Nat) :
    Except TlsError (Nat × Nat) :=
  match n with
  | 0 => .ok (acc, p)
  | Nat.succ m =>
    match a_read payload p with
    | .error e => .error e
    | .ok (b, p) => a_read_length_aux payload p m ((acc <<< 8) ||| b)

/-- Abstract `read_length`. -/
def a_read_length (payload : List Nat) (p n : Nat) : Except TlsError (Nat × Nat) :=
  a_read_length_aux payload p n 0

/-- Abstract `seek`. -/
def a_seek (p offset_delta lim : Nat) : Except TlsError (Nat × Nat) :=
  match check_length offset_delta lim with
  | .error e => .error e
  | .ok lim2 => .ok (p + offset_delta, lim2)

/-- Abstract `read_name`. -/
def a_read_name (payload : List Nat) (p n : Nat) (name : List Nat)
    (start_of_label : Bool) : Except TlsError (List Nat × Bool × Nat) :=
  match n with
  | 0 => .ok (name, start_of_label, p)
  | Nat.succ m =>
    match a_read payload p with
    | .error e => .error e
    | .ok (b0, p) =>
      let b := to_ascii_lowercase b0
      if start_of_label ∧ (b = 45 ∨ b = 46) then .error .UnrecognizedName
      else if (97 ≤ b ∧ b ≤ 122) ∨ (48 ≤ b ∧ b ≤ 57) ∨ b = 45 ∨ b = 46 then
        a_read_name payload p m (name ++ [b]) (b = 46)
      else .error .UnrecognizedName

/-- Abstract `server_name_list`. -/
def a_server_name_list (payload : List Nat) (p length : Nat) :
    Except TlsError (List Nat × Nat) :=
  if length = 0 then .error .UnrecognizedName
  else if 3 ≤ length then
    match a_read payload p with
    | .error e => .error e
    | .ok (name_type, p) =>
      match a_read_length payload p 2 with
      | .error e => .error e
      | .ok (name_length, p) =>
        if name_type ≠ 0 then
          if name_length ≤ length - 3 then
            a_server_name_list payload (p + name_length) (length - 3 - name_length)
          else .error .DecodeError
        else
          if name_length ≤ length - 3 then
            if 254 < name_length then .error .UnrecognizedName
            else
              match a_read_name payload p name_length [] true with
              | .error e => .error e
              | .ok (name, start_of_label, p) =>
                if start_of_label then .error .UnrecognizedName
                else .ok (name, p)
          else .error .DecodeError
  else .error .DecodeError
termination_by length
decreasing_by omega

/-- Abstract `extensions_loop`. -/
def a_extensions_loop (payload : List Nat) (p hello_length : Nat) :
    Except TlsError (List Nat × Nat) :=
  if hello_length = 0 then .error .UnrecognizedName
  else if 4 ≤ hello_length then
    match a_read_length payload p 2 with
    | .error e => .error e
    | .ok (extension, p) =>
      match a_read_length payload p 2 with
      | .error e => .error e
      | .ok (length, p) =>
        if extension ≠ 0 then
          if length ≤ hello_length - 4 then
            a_extensions_loop payload (p + length) (hello_length - 4 - length)
          else .error .DecodeError
        else
          if length ≤ hello_length - 4 then
            if 2 ≤ length then
              match a_read_length payload p 2 with
              | .error e => .error e
              | .ok (v, p) =>
                if length - 2 ≠ v then .error .DecodeError
                else a_server_name_list payload p (length - 2)
            else .error .DecodeError
          else .error .DecodeError
  else .error .DecodeError
termination_by hello_length
decreasing_by omega

/-- Abstract `get_server_name`. -/
def a_get_server_name (payload : List Nat) : Except TlsError (List Nat × Nat) :=
  match a_read payload 0 with
  | .error e => .error e
  | .ok (b, p) =>
    if b ≠ 1 then .error .UnexpectedMessage
    else
      match a_read_length payload p 3 with
      | .error e => .error e
      | .ok (hello_length, p) =>
        match a_seek p 34 hello_length with
        | .error e => .error e
        | .ok (p, hello_length) =>
          match check_length 1 hello_length with
          | .error e => .error e
          | .ok hello_length =>
            match a_read_length payload p 1 with
            | .error e => .error e
            | .ok (length, p) =>
              match a_seek p length hello_length with
              | .error e => .error e
              | .ok (p, hello_length) =>
                match check_length 2 hello_length with
                | .error e => .error e
                | .ok hello_length =>
                  match a_read_length payload p 2 with
                  | .error e => .error e
                  | .ok (length, p) =>
                    match a_seek p length hello_length with
                    | .error e => .error e
                    | .ok (p, hello_length) =>
                      match check_length 1 hello_length with
                      | .error e => .error e
                      | .ok hello_length =>
                        match a_read_length payload p 1 with
                        | .error e => .error e
                        | .ok (length, p) =>
                          match a_seek p length hello_length with
                          | .error e => .error e
                          | .ok (p, hello_length) =>
                            if hello_length = 0 then .error .UnrecognizedName
                            else
                              match check_length 2 hello_length with
                              | .error e => .error e
                              | .ok hello_length =>
                                match a_read_length payload p 2 with
                                | .error e => .error e
                                | .ok (v, p) =>
                                  if hello_length ≠ v then .error .DecodeError
                                  else a_extensions_loop payload p hello_length

/-! ## Simulation relation -/

/-- `Sim fs c p s`: the reader `s`, running over the wire bytes `frame fs`,
represents the abstract handshake stream `List.flatten fs` at position `p`,
with `c` record headers consumed so far. -/
def Sim (fs : List (List Nat)) (c p : Nat) (s : TlsHandshakeReader) : Prop :=
  s.buffer ++ s.source = frame fs ∧
  c ≤ fs.length ∧
  s.offset = p + 5 * c ∧
  s.limit = 5 * c + sumLen (fs.take c) ∧
  sumLen (fs.take (c - 1)) ≤ p

/-- Relating an abstract result to a concrete one, for value type `α`:
identical errors, or identical values with related final states. -/
def SimRes {α : Type} (fs : List (List Nat))
    (ra : Except TlsError (α × Nat))
    (rc : Except TlsError (α × TlsHandshakeReader)) : Prop :=
  match ra with
  | .error e => rc = .error e
  | .ok (v, p) => ∃ c s, rc = .ok (v, s) ∧ Sim fs c p s

/-- Relating an abstract `read_name` result to a concrete one. -/
def SimResName (fs : List (List Nat))
    (ra : Except TlsError (List Nat × Bool × Nat))
    (rc : Except TlsError (List Nat × Bool × TlsHandshakeReader)) : Prop :=
  match ra with
  | .error e => rc = .error e
  | .ok (nm, fl, p) => ∃ c s, rc = .ok (nm, fl, s) ∧ Sim fs c p s

/-- Forget the final parser state, keeping the name or the error. -/
def name_result {σ : Type} (r : Except TlsError (List Nat × σ)) :
    Except TlsError (List Nat) :=
  match r with
  | .error e => .error e
  | .ok (n, _) => .ok n

/-! ## Executable twins

The loops above use well-founded recursion, which the kernel cannot unfold on
concrete inputs.  These structurally recursive twins take an explicit fuel
that provably suffices (equivalence theorems below), so concrete runs can be
checked by `decide`. -/

/-- Fuel twin of `read_records`; `fuel` bounds `offset + 1 - limit`. -/
def rr_fuel : Nat → TlsHandshakeReader → Except TlsError TlsHandshakeReader
  | 0, s => .ok s
  | fuel + 1, s =>
    if s.limit ≤ s.offset then
      match TlsHandshakeReader.fill_to s.buffer s.source (s.limit + 5) with
      | .error e => .error e
      | .ok (buf, src) =>
        match TlsHandshakeReader.record_check buf s.limit with
        | .error e => .error e
        | .ok length =>
          rr_fuel fuel { source := src, buffer := buf,
                         offset := s.offset + 5, limit := s.limit + 5 + length }
    else .ok s

/-- Executable `read`. -/
def read_exec (s : TlsHandshakeReader) : Except TlsError (Nat × TlsHandshakeReader) :=
  match rr_fuel (s.offset + 1 - s.limit) s with
  | .error e => .error e
  | .ok s =>
    match TlsHandshakeReader.fill_to s.buffer s.source (s.offset + 1) with
    | .error e => .error e
    | .ok (buf, src) =>
      .ok (buf.getD s.offset 0,
           { source := src, buffer := buf, offset := s.offset + 1, limit := s.limit })

/-- Executable `read_length_aux`. -/
def rl_exec (s : TlsHandshakeReader) (n acc : Nat) :
    Except TlsError (Nat × TlsHandshakeReader) :=
  match n with
  | 0 => .ok (acc, s)
  | Nat.succ m =>
    match read_exec s with
    | .error e => .error e
    | .ok (b, s) => rl_exec s m ((acc <<< 8) ||| b)

/-- Executable `read_name`. -/
def read_name_exec (s : TlsHandshakeReader) (n : Nat) (name : List Nat)
    (start_of_label : Bool) :
    Except TlsError (List Nat × Bool × TlsHandshakeReader) :=
  match n with
  | 0 => .ok (name, start_of_label, s)
  | Nat.succ m =>
    match read_exec s with
    | .error e => .error e
    | .ok (b0, s) =>
      let b := to_ascii_lowercase b0
      if start_of_label ∧ (b = 45 ∨ b = 46) then .error .UnrecognizedName
      else if (97 ≤ b ∧ b ≤ 122) ∨ (48 ≤ b ∧ b ≤ 57) ∨ b = 45 ∨ b = 46 then
        read_name_exec s m (name ++ [b]) (b = 46)
      else .error .UnrecognizedName

/-- Fuel twin of `server_name_list`; `fuel` bounds `length + 1`. -/
def snl_fuel : Nat → TlsHandshakeReader → Nat →
    Except TlsError (List Nat × TlsHandshakeReader)
  | 0, _, _ => .error .InternalError
  | fuel + 1, s, length =>
    if length = 0 then .error .UnrecognizedName
    else if 3 ≤ length then
      match read_exec s with
      | .error e => .error e
      | .ok (name_type, s) =>
        match rl_exec s 2 0 with
        | .error e => .error e
        | .ok (name_length, s) =>
          if name_type ≠ 0 then
            if name_length ≤ length - 3 then
              snl_fuel fuel { s with offset := s.offset + name_length }
                (length - 3 - name_length)
            else .error .DecodeError
          else
            if name_length ≤ length - 3 then
              if 254 < name_length then .error .UnrecognizedName
              else
                match read_name_exec s name_length [] true with
                | .error e => .error e
                | .ok (name, start_of_label, s) =>
                  if start_of_label then .error .UnrecognizedName
                  else .ok (name, s)
            else .error .DecodeError
    else .error .DecodeError

/-- Fuel twin of `extensions_loop`; `fuel` bounds `hello_length + 1`. -/
def ext_fuel : Nat → TlsHandshakeReader → Nat →
    Except TlsError (List Nat × TlsHandshakeReader)
  | 0, _, _ => .error .InternalError
  | fuel + 1, s, hello_length =>
    if hello_length = 0 then .error .UnrecognizedName
    else if 4 ≤ hello_length then
      match rl_exec s 2 0 with
      | .error e => .error e
      | .ok (extension, s) =>
        match rl_exec s 2 0 with
        | .error e => .error e
        | .ok (length, s) =>
          if extension ≠ 0 then
            if length ≤ hello_length - 4 then
              ext_fuel fuel { s with offset := s.offset + length }
                (hello_length - 4 - length)
            else .error .DecodeError
          else
            if length ≤ hello_length - 4 then
              if 2 ≤ length then
                match rl_exec s 2 0 with
                | .error e => .error e
                | .ok (v, s) =>
                  if length - 2 ≠ v then .error .DecodeError
                  else snl_fuel (length - 2 + 1) s (length - 2)
              else .error .DecodeError
            else .error .DecodeError
    else .error .DecodeError

/-- Executable `get_server_name`. -/
def gsn_exec (s : TlsHandshakeReader) :
    Except TlsError (List Nat × TlsHandshakeReader) :=
  match read_exec s with
  | .error e => .error e
  | .ok (b, s) =>
    if b ≠ 1 then .error .UnexpectedMessage
    else
      match rl_exec s 3 0 with
      | .error e => .error e
      | .ok (hello_length, s) =>
        match TlsHandshakeReader.seek s 34 hello_length with
        | .error e => .error e
        | .ok (s, hello_length) =>
          match check_length 1 hello_length with
          | .error e => .error e
          | .ok hello_length =>
            match rl_exec s 1 0 with
            | .error e => .error e
            | .ok (length, s) =>
              match TlsHandshakeReader.seek s length hello_length with
              | .error e => .error e
              | .ok (s, hello_length) =>
                match check_length 2 hello_length with
                | .error e => .error e
                | .ok hello_length =>
                  match rl_exec s 2 0 with
                  | .error e => .error e
                  | .ok (length, s) =>
                    match TlsHandshakeReader.seek s length hello_length with
                    | .error e => .error e
                    | .ok (s, hello_length) =>
                      match check_length 1 hello_length with
                      | .error e => .error e
                      | .ok hello_length =>
                        match rl_exec s 1 0 with
                        | .error e => .error e
                        | .ok (length, s) =>
                          match TlsHandshakeReader.seek s length hello_length with
                          | .error e => .error e
                          | .ok (s, hello_length) =>
                            if hello_length = 0 then .error .UnrecognizedName
                            else
                              match check_length 2 hello_length with
                              | .error e => .error e
                              | .ok hello_length =>
                                match rl_exec s 2 0 with
                                | .error e => .error e
                                | .ok (v, s) =>
                                  if hello_length ≠ v then .error .DecodeError
                                  else ext_fuel (hello_length + 1) s hello_length

/-! ## Concrete example data

A minimal well-formed ClientHello with SNI host_name "a" (84 bytes would be
0x54; here 54 payload bytes), used for closed witnesses and counterexamples:
handshake type 1; body length 50; legacy_version + random (34 bytes);
empty session id, cipher suites, compression; extensions length 10; one
server_name extension of length 6 whose list holds one host_name entry "a". -/
def helloBytes : List Nat :=
  [1, 0, 0, 50,
   0, 0, 0, 0, 0, 0, 0, 0, 0, 0, 0, 0, 0, 0, 0, 0, 0, 0, 0, 0, 0, 0, 0, 0,
   0, 0, 0, 0, 0, 0, 0, 0, 0, 0,
   0,
   0, 0,
   0,
   0, 10,
   0, 0,
   0, 6,
   0, 4,
   0,
   0, 1,
   97]

/-- The example ClientHello delivered in a single record. -/
def wireOne : List Nat := frame [helloBytes]

/-- The example ClientHello split into two records of lengths 1 and 53. -/
def wireTwo : List Nat := frame [[1], helloBytes.drop 1]

/-! ## Basic lemmas -/

/-- Big-endian recombination: `(a << 8) | b = 256 * a + b` when `b < 256`. -/
theorem shl8_or_eq (a b : Nat) (hb : b < 256) : (a <<< 8) ||| b = 256 * a + b := by
  apply Nat.eq_of_testBit_eq
  intro i
  rw [Nat.testBit_or, Nat.testBit_shiftLeft]
  rcases Nat.lt_or_ge i 8 with hi | hi
  · have h1 : decide (8 ≤ i) = false := by simp; omega
    have h2 : (256 * a + b) % 2 ^ 8 = b := by
      have h : (2 : Nat) ^ 8 = 256 := by norm_num
      rw [h]; omega
    have h3 : (256 * a + b).testBit i = b.testBit i := by
      have h4 := Nat.testBit_mod_two_pow (256 * a + b) 8 i
      rw [h2] at h4
      simp [hi] at h4
      exact h4.symm
    rw [h1, h3]
    simp
  · have h1 : decide (8 ≤ i) = true := by simp [hi]
    have hb2 : b.testBit i = false := by
      apply Nat.testBit_lt_two_pow
      calc b < 256 := hb
        _ = 2 ^ 8 := by norm_num
        _ ≤ 2 ^ i := Nat.pow_le_pow_right (by norm_num) hi
    have h5 : (256 * a + b) >>> 8 = a := by
      rw [Nat.shiftRight_eq_div_pow]
      have h : (2 : Nat) ^ 8 = 256 := by norm_num
      rw [h]
      omega
    have h6 : (256 * a + b).testBit i = a.testBit (i - 8) := by
      have h7 : ((256 * a + b) >>> 8).testBit (i - 8) =
          (256 * a + b).testBit (8 + (i - 8)) := Nat.testBit_shiftRight _
      rw [h5] at h7
      rw [h7]
      congr 1
      omega
    rw [h1, h6, hb2]
    simp

namespace TlsHandshakeReader

/-- A successful fill preserves the underlying stream and reaches the target. -/
theorem fill_to_ok {buffer source bs ss : List Nat} {target : Nat}
    (h : fill_to buffer source target = .ok (bs, ss)) :
    bs ++ ss = buffer ++ source ∧ target ≤ bs.length := by
  unfold fill_to at h
  split at h
  · simp only [Except.ok.injEq, Prod.mk.injEq] at h
    obtain ⟨h1, h2⟩ := h
    subst h1; subst h2
    constructor
    · rfl
    · omega
  · split at h
    · simp only [Except.ok.injEq, Prod.mk.injEq] at h
      obtain ⟨h1, h2⟩ := h
      subst h1; subst h2
      constructor
      · rw [List.append_assoc, List.take_append_drop]
      · rw [List.length_append, List.length_take]
        omega
    · simp at h

/-- A fill succeeds iff the stream has at least `target` bytes. -/
theorem fill_to_progress {buffer source : List Nat} {target : Nat}
    (h : target ≤ buffer.length + source.length) :
    ∃ bs ss, fill_to buffer source target = .ok (bs, ss) := by
  unfold fill_to
  split
  · exact ⟨buffer, source, rfl⟩
  · have h2 : target - buffer.length ≤ source.length := by omega
    simp [h2]

/-- A fill fails exactly on a too-short stream, and with a decode error. -/
theorem fill_to_eof {buffer source : List Nat} {target : Nat}
    (h : buffer.length + source.length < target) :
    fill_to buffer source target = .error .DecodeError := by
  unfold fill_to
  have h1 : ¬ target ≤ buffer.length := by omega
  have h2 : ¬ target - buffer.length ≤ source.length := by omega
  simp [h1, h2]

/-- A validated record length is nonzero. -/
theorem record_check_pos {buffer : List Nat} {limit l : Nat}
    (h : record_check buffer limit = .ok l) : 1 ≤ l := by
  unfold record_check at h
  split at h
  · simp at h
  · simp only at h
    split at h
    · simp at h
    · split at h
      · simp at h
      · simp only [Except.ok.injEq] at h
        omega

/-- A validated record length is at most `2 ^ 14`. -/
theorem record_check_le {buffer : List Nat} {limit l : Nat}
    (h : record_check buffer limit = .ok l) : l ≤ 2 ^ 14 := by
  unfold record_check at h
  split at h
  · simp at h
  · simp only at h
    split at h
    · simp at h
    · split at h
      · simp at h
      · simp only [Except.ok.injEq] at h
        omega

end TlsHandshakeReader

/-! ## Equivalence of the executable twins -/

theorem rr_fuel_eq (fuel : Nat) : ∀ s : TlsHandshakeReader,
    s.offset + 1 - s.limit ≤ fuel →
    TlsHandshakeReader.read_records s = rr_fuel fuel s := by
  induction fuel with
  | zero =>
    intro s h
    have h2 : ¬ s.limit ≤ s.offset := by omega
    rw [TlsHandshakeReader.read_records, rr_fuel]
    simp [h2]
  | succ fuel ih =>
    intro s h
    rw [TlsHandshakeReader.read_records, rr_fuel]
    split
    · rename_i hle
      cases hfill : TlsHandshakeReader.fill_to s.buffer s.source (s.limit + 5) with
      | error e => simp
      | ok p =>
        obtain ⟨buf, src⟩ := p
        simp only
        cases hrec : TlsHandshakeReader.record_check buf s.limit with
        | error e => simp
        | ok length =>
          simp only
          apply ih
          have := TlsHandshakeReader.record_check_pos hrec
          simp only
          omega
    · rfl

theorem read_exec_eq (s : TlsHandshakeReader) :
    TlsHandshakeReader.read s = read_exec s := by
  unfold TlsHandshakeReader.read read_exec
  rw [rr_fuel_eq (s.offset + 1 - s.limit) s (Nat.le_refl _)]

theorem rl_exec_eq (n : Nat) : ∀ (s : TlsHandshakeReader) (acc : Nat),
    TlsHandshakeReader.read_length_aux s n acc = rl_exec s n acc := by
  induction n with
  | zero => intro s acc; rfl
  | succ m ih =>
    intro s acc
    unfold TlsHandshakeReader.read_length_aux rl_exec
    rw [← read_exec_eq]
    cases TlsHandshakeReader.read s with
    | error e => rfl
    | ok p => exact ih p.2 _

theorem read_name_exec_eq (n : Nat) : ∀ (s : TlsHandshakeReader)
    (name : List Nat) (fl : Bool),
    read_name s n name fl = read_name_exec s n name fl := by
  induction n with
  | zero => intro s name fl; rfl
  | succ m ih =>
    intro s name fl
    unfold read_name read_name_exec
    rw [← read_exec_eq]
    cases TlsHandshakeReader.read s with
    | error e => rfl
    | ok p =>
      simp only
      split
      · rfl
      · split
        · exact ih _ _ _
        · rfl

theorem snl_fuel_eq (fuel : Nat) : ∀ (s : TlsHandshakeReader) (length : Nat),
    length < fuel → server_name_list s length = snl_fuel fuel s length := by
  induction fuel with
  | zero => intro s length h; omega
  | succ fuel ih =>
    intro s length h
    rw [server_name_list, snl_fuel]
    simp only [TlsHandshakeReader.read_length, rl_exec_eq, read_exec_eq,
      read_name_exec_eq]
    split
    · rfl
    · split
      · rename_i h0 h3
        cases read_exec s with
        | error e => rfl
        | ok p =>
          simp only
          cases rl_exec p.2 2 0 with
          | error e => rfl
          | ok q =>
            simp only
            split
            · split
              · apply ih
                omega
              · rfl
            · rfl
      · rfl

theorem ext_fuel_eq (fuel : Nat) : ∀ (s : TlsHandshakeReader) (hl : Nat),
    hl < fuel → extensions_loop s hl = ext_fuel fuel s hl := by
  induction fuel with
  | zero => intro s hl h; omega
  | succ fuel ih =>
    intro s hl h
    rw [extensions_loop, ext_fuel]
    simp only [TlsHandshakeReader.read_length, rl_exec_eq, read_exec_eq]
    split
    · rfl
    · split
      · rename_i h0 h4
        cases rl_exec s 2 0 with
        | error e => rfl
        | ok p =>
          simp only
          cases rl_exec p.2 2 0 with
          | error e => rfl
          | ok q =>
            simp only
            split
            · split
              · apply ih
                omega
              · rfl
            · split
              · split
                · cases rl_exec q.2 2 0 with
                  | error e => rfl
                  | ok r =>
                    simp only
                    split
                    · rfl
                    · exact snl_fuel_eq _ _ _ (by omega)
                · rfl
              · rfl
      · rfl

theorem gsn_exec_eq (s : TlsHandshakeReader) :
    get_server_name s = gsn_exec s := by
  unfold get_server_name gsn_exec
  simp only [TlsHandshakeReader.read_length, rl_exec_eq, read_exec_eq]
  cases read_exec s with
  | error e => rfl
  | ok p =>
    simp only
    split
    · rfl
    · cases rl_exec p.2 3 0 with
      | error e => rfl
      | ok q =>
        simp only
        cases TlsHandshakeReader.seek q.2 34 q.1 with
        | error e => rfl
        | ok r =>
          simp only
          cases check_length 1 r.2 with
          | error e => rfl
          | ok hl =>
            simp only
            cases rl_exec r.1 1 0 with
            | error e => rfl
            | ok q2 =>
              simp only
              cases TlsHandshakeReader.seek q2.2 q2.1 hl with
              | error e => rfl
              | ok r2 =>
                simp only
                cases check_length 2 r2.2 with
                | error e => rfl
                | ok hl2 =>
                  simp only
                  cases rl_exec r2.1 2 0 with
                  | error e => rfl
                  | ok q3 =>
                    simp only
                    cases TlsHandshakeReader.seek q3.2 q3.1 hl2 with
                    | error e => rfl
                    | ok r3 =>
                      simp only
                      cases check_length 1 r3.2 with
                      | error e => rfl
                      | ok hl3 =>
                        simp only
                        cases rl_exec r3.1 1 0 with
                        | error e => rfl
                        | ok q4 =>
                          simp only
                          cases TlsHandshakeReader.seek q4.2 q4.1 hl3 with
                          | error e => rfl
                          | ok r4 =>
                            simp only
                            split
                            · rfl
                            · cases check_length 2 r4.2 with
                              | error e => rfl
                              | ok hl4 =>
                                simp only
                                cases rl_exec r4.1 2 0 with
                                | error e => rfl
                                | ok q5 =>
                                  simp only
                                  split
                                  · rfl
                                  · exact ext_fuel_eq _ _ _ (by omega)

/-! ## Concrete evaluation lemmas -/

theorem eval_wireOne :
    get_server_name (TlsHandshakeReader.new wireOne) =
      .ok ([97], { source := [], buffer := wireOne, offset := 59, limit := 59 }) := by
  rw [gsn_exec_eq]
  decide

theorem eval_wireTwo :
    get_server_name (TlsHandshakeReader.new wireTwo) =
      .ok ([97], { source := [], buffer := wireTwo, offset := 64, limit := 64 }) := by
  rw [gsn_exec_eq]
  decide

theorem eval_empty :
    get_server_name (TlsHandshakeReader.new []) = .error .DecodeError := by
  rw [gsn_exec_eq]
  decide

/-! ## Arithmetic of framing -/

theorem sumLen_nil : sumLen [] = 0 := rfl

theorem sumLen_cons (f : List Nat) (fs : List (List Nat)) :
    sumLen (f :: fs) = f.length + sumLen fs := by
  simp [sumLen]

theorem frame_length (fs : List (List Nat)) :
    (frame fs).length = 5 * fs.length + sumLen fs := by
  induction fs with
  | nil => rfl
  | cons f fs ih =>
    simp only [frame, record_header, List.length_append, ih, sumLen_cons,
      List.length_cons, List.length_nil]
    omega

theorem flatten_length (fs : List (List Nat)) :
    (List.flatten fs).length = sumLen fs := by
  induction fs with
  | nil => rfl
  | cons f fs ih => simp [sumLen_cons, ih]

theorem sumLen_take_le (fs : List (List Nat)) (c : Nat) :
    sumLen (fs.take c) ≤ sumLen fs := by
  induction fs generalizing c with
  | nil => simp [sumLen]
  | cons f fs ih =>
    cases c with
    | zero => simp [sumLen]
    | succ c =>
      simp only [List.take_succ_cons, sumLen_cons]
      have := ih c
      omega

theorem sumLen_take_succ (fs : List (List Nat)) (c : Nat) (h : c < fs.length) :
    sumLen (fs.take (c + 1)) = sumLen (fs.take c) + (fs.getD c []).length := by
  induction fs generalizing c with
  | nil => simp at h
  | cons f fs ih =>
    cases c with
    | zero => simp [sumLen_cons, sumLen]
    | succ c =>
      simp only [List.take_succ_cons, sumLen_cons, List.getD_cons_succ]
      rw [ih c (by simpa using h)]
      omega

theorem sumLen_take_full (fs : List (List Nat)) (c : Nat) (h : fs.length ≤ c) :
    sumLen (fs.take c) = sumLen fs := by
  rw [List.take_of_length_le h]

theorem sumLen_take_mono (fs : List (List Nat)) {c c' : Nat} (h : c ≤ c') :
    sumLen (fs.take c) ≤ sumLen (fs.take c') := by
  induction fs generalizing c c' with
  | nil => simp [sumLen]
  | cons f fs ih =>
    cases c with
    | zero => simp [sumLen]
    | succ c =>
      cases c' with
      | zero => omega
      | succ c' =>
        simp only [List.take_succ_cons, sumLen_cons]
        have := @ih c c' (by omega)
        omega

theorem frame_getD_hd0 (fs : List (List Nat)) {j : Nat} (h : j < fs.length) :
    (frame fs).getD (5 * j + sumLen (fs.take j)) 0 = 22 := by
  induction fs generalizing j with
  | nil => simp at h
  | cons f fs ih =>
    cases j with
    | zero => simp [frame, record_header, sumLen]
    | succ j =>
      have h2 : j < fs.length := by simpa using h
      have hpre : frame (f :: fs) = (record_header f.length ++ f) ++ frame fs := by
        simp [frame]
      have hlen : (record_header f.length ++ f).length = 5 + f.length := by
        simp only [record_header, List.length_append, List.length_cons,
          List.length_nil]
      have hpos : 5 * (j + 1) + sumLen ((f :: fs).take (j + 1)) =
          (record_header f.length ++ f).length + (5 * j + sumLen (fs.take j)) := by
        simp only [List.take_succ_cons, sumLen_cons, hlen]
        omega
      rw [hpre, hpos,
        List.getD_append_right _ _ _ _ (Nat.le_add_right _ _),
        Nat.add_sub_cancel_left]
      exact ih h2

theorem frame_getD_hd3 (fs : List (List Nat)) {j : Nat} (h : j < fs.length) :
    (frame fs).getD (5 * j + sumLen (fs.take j) + 3) 0 = (fs.getD j []).length / 256 := by
  induction fs generalizing j with
  | nil => simp at h
  | cons f fs ih =>
    cases j with
    | zero => simp [frame, record_header, sumLen]
    | succ j =>
      have h2 : j < fs.length := by simpa using h
      have hpre : frame (f :: fs) = (record_header f.length ++ f) ++ frame fs := by
        simp [frame]
      have hlen : (record_header f.length ++ f).length = 5 + f.length := by
        simp only [record_header, List.length_append, List.length_cons,
          List.length_nil]
      have hpos : 5 * (j + 1) + sumLen ((f :: fs).take (j + 1)) + 3 =
          (record_header f.length ++ f).length + (5 * j + sumLen (fs.take j) + 3) := by
        simp only [List.take_succ_cons, sumLen_cons, hlen]
        omega
      rw [hpre, hpos,
        List.getD_append_right _ _ _ _ (Nat.le_add_right _ _),
        Nat.add_sub_cancel_left]
      simpa using ih h2

theorem frame_getD_hd4 (fs : List (List Nat)) {j : Nat} (h : j < fs.length) :
    (frame fs).getD (5 * j + sumLen (fs.take j) + 4) 0 = (fs.getD j []).length % 256 := by
  induction fs generalizing j with
  | nil => simp at h
  | cons f fs ih =>
    cases j with
    | zero => simp [frame, record_header, sumLen]
    | succ j =>
      have h2 : j < fs.length := by simpa using h
      have hpre : frame (f :: fs) = (record_header f.length ++ f) ++ frame fs := by
        simp [frame]
      have hlen : (record_header f.length ++ f).length = 5 + f.length := by
        simp only [record_header, List.length_append, List.length_cons,
          List.length_nil]
      have hpos : 5 * (j + 1) + sumLen ((f :: fs).take (j + 1)) + 4 =
          (record_header f.length ++ f).length + (5 * j + sumLen (fs.take j) + 4) := by
        simp only [List.take_succ_cons, sumLen_cons, hlen]
        omega
      rw [hpre, hpos,
        List.getD_append_right _ _ _ _ (Nat.le_add_right _ _),
        Nat.add_sub_cancel_left]
      simpa using ih h2

theorem frame_getD_payload (fs : List (List Nat)) {j i : Nat} (h : j < fs.length)
    (h1 : sumLen (fs.take j) ≤ i)
    (h2 : i < sumLen (fs.take j) + (fs.getD j []).length) :
    (frame fs).getD (5 * (j + 1) + i) 0 = (List.flatten fs).getD i 0 := by
  induction fs generalizing j i with
  | nil => simp at h
  | cons f fs ih =>
    cases j with
    | zero =>
      have hif : i < f.length := by
        simpa [sumLen] using h2
      have hpre : frame (f :: fs) = record_header f.length ++ (f ++ frame fs) := by
        simp [frame]
      have hpos : 5 * (0 + 1) + i = (record_header f.length).length + i := by
        simp only [record_header, List.length_cons, List.length_nil]
      rw [hpre, hpos,
        List.getD_append_right _ _ _ _ (Nat.le_add_right _ _),
        Nat.add_sub_cancel_left,
        List.getD_append _ _ _ _ hif]
      rw [List.flatten_cons, List.getD_append _ _ _ _ hif]
    | succ j =>
      have h2j : j < fs.length := by simpa using h
      have hfl : f.length ≤ i := by
        have := sumLen_cons f fs
        simp only [List.take_succ_cons, sumLen_cons] at h1
        omega
      have hpre : frame (f :: fs) = (record_header f.length ++ f) ++ frame fs := by
        simp [frame]
      have hlen : (record_header f.length ++ f).length = 5 + f.length := by
        simp only [record_header, List.length_append, List.length_cons,
          List.length_nil]
      have hpos : 5 * (j + 1 + 1) + i =
          (record_header f.length ++ f).length + (5 * (j + 1) + (i - f.length)) := by
        rw [hlen]
        omega
      rw [hpre, hpos,
        List.getD_append_right _ _ _ _ (Nat.le_add_right _ _),
        Nat.add_sub_cancel_left]
      rw [List.flatten_cons, List.getD_append_right _ _ _ _ hfl]
      apply ih h2j
      · simp only [List.take_succ_cons, sumLen_cons] at h1
        omega
      · simp only [List.take_succ_cons, sumLen_cons, List.getD_cons_succ] at h2
        omega

/-! ## Simulation: concrete reader over a legal framing vs abstract stream -/

theorem getD_of_append_eq {l1 l2 W : List Nat} (h : l1 ++ l2 = W) {n : Nat}
    (hn : n < l1.length) : l1.getD n 0 = W.getD n 0 := by
  subst h
  exact (List.getD_append _ _ _ _ hn).symm

theorem getD_mem_of_lt (l : List Nat) {n : Nat} (h : n < l.length) :
    l.getD n 0 ∈ l := by
  rw [List.getD_eq_getElem l 0 h]
  exact List.getElem_mem h

theorem getD_mem_of_lt2 (l : List (List Nat)) {n : Nat} (h : n < l.length) :
    l.getD n [] ∈ l := by
  rw [List.getD_eq_getElem l [] h]
  exact List.getElem_mem h

theorem sim_read_records (fs : List (List Nat)) (hleg : legal_frags fs) :
    ∀ d c p s, fs.length - c = d → Sim fs c p s →
      (p < sumLen fs →
        ∃ c' s', TlsHandshakeReader.read_records s = .ok s' ∧ Sim fs c' p s' ∧
          c' ≤ fs.length ∧ p < sumLen (fs.take c')) ∧
      (sumLen fs ≤ p → TlsHandshakeReader.read_records s = .error .DecodeError) := by
  intro d
  induction d with
  | zero =>
    intro c p s hd hs
    obtain ⟨hbs, hcle, hoff, hlim, hprev⟩ := hs
    have hc : c = fs.length := by omega
    subst hc
    have hSc : sumLen (fs.take fs.length) = sumLen fs := by
      rw [sumLen_take_full fs fs.length (Nat.le_refl _)]
    rcases Nat.lt_or_ge p (sumLen fs) with hp | hp
    · -- offset < limit: the loop body is skipped
      have hcond : ¬ s.limit ≤ s.offset := by omega
      rw [TlsHandshakeReader.read_records, dif_neg hcond]
      constructor
      · intro _
        exact ⟨fs.length, s, rfl, ⟨hbs, hcle, hoff, hlim, hprev⟩, Nat.le_refl _,
          by omega⟩
      · intro hge
        omega
    · -- past the whole payload with no fragments left: the header fill hits EOF
      have hcond : s.limit ≤ s.offset := by omega
      have hWlen : s.buffer.length + s.source.length = 5 * fs.length + sumLen fs := by
        have := congrArg List.length hbs
        simpa [frame_length] using this
      have hfill : TlsHandshakeReader.fill_to s.buffer s.source (s.limit + 5) =
          .error .DecodeError := by
        apply TlsHandshakeReader.fill_to_eof
        omega
      rw [TlsHandshakeReader.read_records, dif_pos hcond, hfill]
      constructor
      · intro hlt
        omega
      · intro _
        rfl
  | succ d ih =>
    intro c p s hd hs
    obtain ⟨hbs, hcle, hoff, hlim, hprev⟩ := hs
    have hc : c < fs.length := by omega
    have hScle : sumLen (fs.take c) ≤ sumLen fs := sumLen_take_le fs c
    rcases Nat.lt_or_ge p (sumLen (fs.take c)) with hp | hp
    · -- offset < limit: the loop body is skipped
      have hcond : ¬ s.limit ≤ s.offset := by omega
      rw [TlsHandshakeReader.read_records, dif_neg hcond]
      constructor
      · intro _
        exact ⟨c, s, rfl, ⟨hbs, hcle, hoff, hlim, hprev⟩, hcle, hp⟩
      · intro hge
        omega
    · -- consume the next record header
      have hcond : s.limit ≤ s.offset := by omega
      have hWlen : s.buffer.length + s.source.length = 5 * fs.length + sumLen fs := by
        have := congrArg List.length hbs
        simpa [frame_length] using this
      have hfrag := hleg (fs.getD c []) (getD_mem_of_lt2 fs hc)
      have hSsucc := sumLen_take_succ fs c hc
      have hSmono : sumLen (fs.take (c + 1)) ≤ sumLen fs := sumLen_take_le fs (c + 1)
      obtain ⟨buf, src, hfill⟩ :=
        @TlsHandshakeReader.fill_to_progress s.buffer s.source (s.limit + 5)
          (by omega)
      obtain ⟨hcat, htgt⟩ := TlsHandshakeReader.fill_to_ok hfill
      have hW : buf ++ src = frame fs := by rw [hcat, hbs]
      have hbt : (22 : Nat) = buf.getD s.limit 0 := by
        rw [getD_of_append_eq hW (by omega), hlim]
        exact (frame_getD_hd0 fs hc).symm
      have hb3 : buf.getD (s.limit + 3) 0 = (fs.getD c []).length / 256 := by
        rw [getD_of_append_eq hW (by omega), hlim]
        exact frame_getD_hd3 fs hc
      have hb4 : buf.getD (s.limit + 4) 0 = (fs.getD c []).length % 256 := by
        rw [getD_of_append_eq hW (by omega), hlim]
        exact frame_getD_hd4 fs hc
      have hrl : TlsHandshakeReader.record_length buf s.limit = (fs.getD c []).length := by
        rw [TlsHandshakeReader.record_length, hb3, hb4,
          shl8_or_eq _ _ (Nat.mod_lt _ (by norm_num))]
        omega
      have hrc : TlsHandshakeReader.record_check buf s.limit =
          .ok (fs.getD c []).length := by
        rw [TlsHandshakeReader.record_check, if_neg (by omega), hrl]
        rw [if_neg (by omega), if_neg (by omega)]
      have hstep : TlsHandshakeReader.read_records s =
          TlsHandshakeReader.read_records
            { source := src, buffer := buf, offset := s.offset + 5,
              limit := s.limit + 5 + (fs.getD c []).length } := by
        rw [TlsHandshakeReader.read_records, dif_pos hcond, hfill]
        dsimp only
        split
        · rename_i e heq
          rw [hrc] at heq
          cases heq
        · rename_i length heq
          rw [hrc] at heq
          cases heq
          rfl
      have hsim2 : Sim fs (c + 1) p
          { source := src, buffer := buf, offset := s.offset + 5,
            limit := s.limit + 5 + (fs.getD c []).length } := by
        refine ⟨hW, by omega, ?_, ?_, ?_⟩
        · show s.offset + 5 = p + 5 * (c + 1)
          omega
        · show s.limit + 5 + (fs.getD c []).length =
            5 * (c + 1) + sumLen (fs.take (c + 1))
          omega
        · show sumLen (fs.take (c + 1 - 1)) ≤ p
          simp only [Nat.add_sub_cancel]
          omega
      have hrest := ih (c + 1) p _ (by omega) hsim2
      rw [hstep]
      exact hrest

theorem SimRes_error {α : Type} (fs : List (List Nat)) (e : TlsError)
    (rc : Except TlsError (α × TlsHandshakeReader)) :
    SimRes fs (.error e) rc ↔ rc = .error e := Iff.rfl

theorem SimRes_ok {α : Type} (fs : List (List Nat)) (v : α) (p : Nat)
    (rc : Except TlsError (α × TlsHandshakeReader)) :
    SimRes fs (.ok (v, p)) rc ↔ ∃ c s, rc = .ok (v, s) ∧ Sim fs c p s := Iff.rfl

theorem sim_read (fs : List (List Nat)) (hleg : legal_frags fs) {c p : Nat}
    {s : TlsHandshakeReader} (hs : Sim fs c p s) :
    SimRes fs (a_read (List.flatten fs) p) (TlsHandshakeReader.read s) := by
  have hflat : (List.flatten fs).length = sumLen fs := flatten_length fs
  rcases Nat.lt_or_ge p (sumLen fs) with hp | hp
  · obtain ⟨c', s', hok, hsim', hc'le, hplt⟩ :=
      (sim_read_records fs hleg (fs.length - c) c p s rfl hs).1 hp
    obtain ⟨hbs', hcle', hoff', hlim', hprev'⟩ := hsim'
    have hSle : sumLen (fs.take c') ≤ sumLen fs := sumLen_take_le fs c'
    have hWlen : s'.buffer.length + s'.source.length = 5 * fs.length + sumLen fs := by
      have := congrArg List.length hbs'
      simpa [frame_length] using this
    obtain ⟨buf, src, hfill⟩ :=
      @TlsHandshakeReader.fill_to_progress s'.buffer s'.source (s'.offset + 1)
        (by omega)
    obtain ⟨hcat, htgt⟩ := TlsHandshakeReader.fill_to_ok hfill
    have hW : buf ++ src = frame fs := by rw [hcat, hbs']
    have hc1 : 1 ≤ c' := by
      by_contra hcon
      have : c' = 0 := by omega
      subst this
      simp [sumLen] at hplt
    have hcm1 : c' - 1 + 1 = c' := by omega
    have hSs : sumLen (fs.take (c' - 1 + 1)) =
        sumLen (fs.take (c' - 1)) + (fs.getD (c' - 1) []).length :=
      sumLen_take_succ fs (c' - 1) (by omega)
    have hbyte : buf.getD s'.offset 0 = (List.flatten fs).getD p 0 := by
      rw [getD_of_append_eq hW (by omega)]
      have hpay := @frame_getD_payload fs (c' - 1) p (by omega)
        (by omega) (by rw [hcm1] at hSs; omega)
      rw [hcm1] at hpay
      rw [hoff', Nat.add_comm p (5 * c')] at *
      exact hpay
    have hread : TlsHandshakeReader.read s =
        .ok (buf.getD s'.offset 0,
          TlsHandshakeReader.mk src buf (s'.offset + 1) s'.limit) := by
      unfold TlsHandshakeReader.read
      rw [hok]
      dsimp only
      rw [hfill]
    have hra : a_read (List.flatten fs) p = .ok ((List.flatten fs).getD p 0, p + 1) := by
      rw [a_read, if_pos (by omega)]
    rw [hra, SimRes_ok]
    refine ⟨c', TlsHandshakeReader.mk src buf (s'.offset + 1) s'.limit, ?_, ?_⟩
    · rw [hread, hbyte]
    · refine ⟨hW, hcle', ?_, ?_, ?_⟩
      · show s'.offset + 1 = p + 1 + 5 * c'
        omega
      · show s'.limit = 5 * c' + sumLen (fs.take c')
        exact hlim'
      · show sumLen (fs.take (c' - 1)) ≤ p + 1
        omega
  · have herr := (sim_read_records fs hleg (fs.length - c) c p s rfl hs).2 hp
    have hra : a_read (List.flatten fs) p = .error .DecodeError := by
      rw [a_read, if_neg (by omega)]
    rw [hra, SimRes_error]
    unfold TlsHandshakeReader.read
    rw [herr]

theorem Sim_bump {fs : List (List Nat)} {c p : Nat} {s : TlsHandshakeReader}
    (hs : Sim fs c p s) (k : Nat) :
    Sim fs c (p + k) { s with offset := s.offset + k } := by
  obtain ⟨hbs, hcle, hoff, hlim, hprev⟩ := hs
  refine ⟨hbs, hcle, ?_, hlim, by omega⟩
  show s.offset + k = p + k + 5 * c
  omega

theorem sim_seek (fs : List (List Nat)) {c p : Nat} {s : TlsHandshakeReader}
    (hs : Sim fs c p s) (k lim : Nat) :
    match a_seek p k lim with
    | .error e => TlsHandshakeReader.seek s k lim = .error e
    | .ok (p', lim2) => ∃ c2 s2,
        TlsHandshakeReader.seek s k lim = .ok (s2, lim2) ∧ Sim fs c2 p' s2 := by
  unfold a_seek TlsHandshakeReader.seek
  cases check_length k lim with
  | error e => rfl
  | ok lim2 =>
    exact ⟨c, { s with offset := s.offset + k }, rfl, Sim_bump hs k⟩

theorem sim_read_length_aux (fs : List (List Nat)) (hleg : legal_frags fs)
    (n : Nat) : ∀ (acc c p : Nat) (s : TlsHandshakeReader), Sim fs c p s →
    SimRes fs (a_read_length_aux (List.flatten fs) p n acc)
      (TlsHandshakeReader.read_length_aux s n acc) := by
  induction n with
  | zero =>
    intro acc c p s hs
    rw [a_read_length_aux, TlsHandshakeReader.read_length_aux, SimRes_ok]
    exact ⟨c, s, rfl, hs⟩
  | succ m ih =>
    intro acc c p s hs
    have hsr := sim_read fs hleg hs
    rw [a_read_length_aux, TlsHandshakeReader.read_length_aux]
    cases ha : a_read (List.flatten fs) p with
    | error e =>
      rw [ha, SimRes_error] at hsr
      rw [hsr]
      rfl
    | ok bp =>
      obtain ⟨b, p1⟩ := bp
      rw [ha, SimRes_ok] at hsr
      obtain ⟨c2, s2, hok, hs2⟩ := hsr
      rw [hok]
      exact ih _ c2 p1 s2 hs2

theorem sim_read_length (fs : List (List Nat)) (hleg : legal_frags fs)
    (n : Nat) {c p : Nat} {s : TlsHandshakeReader} (hs : Sim fs c p s) :
    SimRes fs (a_read_length (List.flatten fs) p n)
      (TlsHandshakeReader.read_length s n) :=
  sim_read_length_aux fs hleg n 0 c p s hs

theorem sim_read_name (fs : List (List Nat)) (hleg : legal_frags fs)
    (n : Nat) : ∀ (name : List Nat) (fl : Bool) (c p : Nat)
    (s : TlsHandshakeReader), Sim fs c p s →
    SimResName fs (a_read_name (List.flatten fs) p n name fl)
      (read_name s n name fl) := by
  induction n with
  | zero =>
    intro name fl c p s hs
    rw [a_read_name, read_name]
    exact ⟨c, s, rfl, hs⟩
  | succ m ih =>
    intro name fl c p s hs
    have hsr := sim_read fs hleg hs
    rw [a_read_name, read_name]
    cases ha : a_read (List.flatten fs) p with
    | error e =>
      rw [ha, SimRes_error] at hsr
      rw [hsr]
      rfl
    | ok bp =>
      obtain ⟨b, p1⟩ := bp
      rw [ha, SimRes_ok] at hsr
      obtain ⟨c2, s2, hok, hs2⟩ := hsr
      rw [hok]
      dsimp only
      split
      · rfl
      · split
        · exact ih _ _ c2 p1 s2 hs2
        · rfl

theorem sim_server_name_list_aux (fs : List (List Nat)) (hleg : legal_frags fs)
    (fuel : Nat) : ∀ length, length < fuel → ∀ c p (s : TlsHandshakeReader),
    Sim fs c p s →
    SimRes fs (a_server_name_list (List.flatten fs) p length)
      (server_name_list s length) := by
  induction fuel with
  | zero => intro length h; omega
  | succ fuel ih =>
    intro length hlt c p s hs
    rw [a_server_name_list, server_name_list]
    by_cases h0 : length = 0
    · rw [if_pos h0, if_pos h0]
      rfl
    · rw [if_neg h0, if_neg h0]
      by_cases h3 : 3 ≤ length
      · rw [if_pos h3, if_pos h3]
        have hsr := sim_read fs hleg hs
        cases ha : a_read (List.flatten fs) p with
        | error e =>
          rw [ha, SimRes_error] at hsr
          rw [hsr]
          rfl
        | ok bp =>
          obtain ⟨ntype, p1⟩ := bp
          rw [ha, SimRes_ok] at hsr
          obtain ⟨c1, s1, hok1, hs1⟩ := hsr
          rw [hok1]
          dsimp only
          have hrl := sim_read_length fs hleg 2 hs1
          cases hb : a_read_length (List.flatten fs) p1 2 with
          | error e =>
            rw [hb, SimRes_error] at hrl
            rw [hrl]
            rfl
          | ok q =>
            obtain ⟨nlen, p2⟩ := q
            rw [hb, SimRes_ok] at hrl
            obtain ⟨c2, s2, hok2, hs2⟩ := hrl
            rw [hok2]
            dsimp only
            by_cases hnt : ntype ≠ 0
            · rw [if_pos hnt, if_pos hnt]
              by_cases hle : nlen ≤ length - 3
              · rw [if_pos hle, if_pos hle]
                exact ih (length - 3 - nlen) (by omega) c2 (p2 + nlen) _
                  (Sim_bump hs2 nlen)
              · rw [if_neg hle, if_neg hle]
                rfl
            · rw [if_neg hnt, if_neg hnt]
              by_cases hle : nlen ≤ length - 3
              · rw [if_pos hle, if_pos hle]
                by_cases h254 : 254 < nlen
                · rw [if_pos h254, if_pos h254]
                  rfl
                · rw [if_neg h254, if_neg h254]
                  have hrn := sim_read_name fs hleg nlen [] true c2 p2 s2 hs2
                  cases hc : a_read_name (List.flatten fs) p2 nlen [] true with
                  | error e =>
                    rw [hc] at hrn
                    rw [hrn]
                    rfl
                  | ok t =>
                    obtain ⟨nm, fl, p3⟩ := t
                    rw [hc] at hrn
                    obtain ⟨c3, s3, hok3, hs3⟩ := hrn
                    rw [hok3]
                    dsimp only
                    by_cases hfl : fl = true
                    · rw [if_pos hfl, if_pos hfl]
                      rfl
                    · rw [if_neg hfl, if_neg hfl]
                      exact ⟨c3, s3, rfl, hs3⟩
              · rw [if_neg hle, if_neg hle]
                rfl
      · rw [if_neg h3, if_neg h3]
        rfl

theorem sim_server_name_list (fs : List (List Nat)) (hleg : legal_frags fs)
    {length c p : Nat} {s : TlsHandshakeReader} (hs : Sim fs c p s) :
    SimRes fs (a_server_name_list (List.flatten fs) p length)
      (server_name_list s length) :=
  sim_server_name_list_aux fs hleg (length + 1) length (Nat.lt_succ_self _) c p s hs

theorem sim_extensions_loop_aux (fs : List (List Nat)) (hleg : legal_frags fs)
    (fuel : Nat) : ∀ hl, hl < fuel → ∀ c p (s : TlsHandshakeReader),
    Sim fs c p s →
    SimRes fs (a_extensions_loop (List.flatten fs) p hl)
      (extensions_loop s hl) := by
  induction fuel with
  | zero => intro hl h; omega
  | succ fuel ih =>
    intro hl hlt c p s hs
    rw [a_extensions_loop, extensions_loop]
    by_cases h0 : hl = 0
    · rw [if_pos h0, if_pos h0]
      rfl
    · rw [if_neg h0, if_neg h0]
      by_cases h4 : 4 ≤ hl
      · rw [if_pos h4, if_pos h4]
        have hrl1 := sim_read_length fs hleg 2 hs
        cases ha : a_read_length (List.flatten fs) p 2 with
        | error e =>
          rw [ha, SimRes_error] at hrl1
          rw [hrl1]
          rfl
        | ok q1 =>
          obtain ⟨ext, p1⟩ := q1
          rw [ha, SimRes_ok] at hrl1
          obtain ⟨c1, s1, hok1, hs1⟩ := hrl1
          rw [hok1]
          dsimp only
          have hrl2 := sim_read_length fs hleg 2 hs1
          cases hb : a_read_length (List.flatten fs) p1 2 with
          | error e =>
            rw [hb, SimRes_error] at hrl2
            rw [hrl2]
            rfl
          | ok q2 =>
            obtain ⟨len, p2⟩ := q2
            rw [hb, SimRes_ok] at hrl2
            obtain ⟨c2, s2, hok2, hs2⟩ := hrl2
            rw [hok2]
            dsimp only
            by_cases hext : ext ≠ 0
            · rw [if_pos hext, if_pos hext]
              by_cases hle : len ≤ hl - 4
              · rw [if_pos hle, if_pos hle]
                exact ih (hl - 4 - len) (by omega) c2 (p2 + len) _
                  (Sim_bump hs2 len)
              · rw [if_neg hle, if_neg hle]
                rfl
            · rw [if_neg hext, if_neg hext]
              by_cases hle : len ≤ hl - 4
              · rw [if_pos hle, if_pos hle]
                by_cases h2 : 2 ≤ len
                · rw [if_pos h2, if_pos h2]
                  have hrl3 := sim_read_length fs hleg 2 hs2
                  cases hc : a_read_length (List.flatten fs) p2 2 with
                  | error e =>
                    rw [hc, SimRes_error] at hrl3
                    rw [hrl3]
                    rfl
                  | ok q3 =>
                    obtain ⟨v, p3⟩ := q3
                    rw [hc, SimRes_ok] at hrl3
                    obtain ⟨c3, s3, hok3, hs3⟩ := hrl3
                    rw [hok3]
                    dsimp only
                    by_cases hv : len - 2 ≠ v
                    · rw [if_pos hv, if_pos hv]
                      rfl
                    · rw [if_neg hv, if_neg hv]
                      exact sim_server_name_list fs hleg hs3
                · rw [if_neg h2, if_neg h2]
                  rfl
              · rw [if_neg hle, if_neg hle]
                rfl
      · rw [if_neg h4, if_neg h4]
        rfl

theorem sim_extensions_loop (fs : List (List Nat)) (hleg : legal_frags fs)
    {hl c p : Nat} {s : TlsHandshakeReader} (hs : Sim fs c p s) :
    SimRes fs (a_extensions_loop (List.flatten fs) p hl)
      (extensions_loop s hl) :=
  sim_extensions_loop_aux fs hleg (hl + 1) hl (Nat.lt_succ_self _) c p s hs

theorem sim_new (fs : List (List Nat)) :
    Sim fs 0 0 (TlsHandshakeReader.new (frame fs)) := by
  refine ⟨rfl, Nat.zero_le _, rfl, ?_, ?_⟩
  · show 0 = 5 * 0 + sumLen (fs.take 0)
    simp [sumLen]
  · show sumLen (fs.take (0 - 1)) ≤ 0
    simp [sumLen]

theorem sim_get_server_name (fs : List (List Nat)) (hleg : legal_frags fs) :
    SimRes fs (a_get_server_name (List.flatten fs))
      (get_server_name (TlsHandshakeReader.new (frame fs))) := by
  unfold a_get_server_name get_server_name
  have hs0 := sim_new fs
  have hsr := sim_read fs hleg hs0
  cases ha : a_read (List.flatten fs) 0 with
  | error e =>
    rw [ha, SimRes_error] at hsr
    rw [hsr]
    rfl
  | ok bp =>
    obtain ⟨b, p1⟩ := bp
    rw [ha, SimRes_ok] at hsr
    obtain ⟨c1, s1, hok1, hs1⟩ := hsr
    rw [hok1]
    dsimp only
    by_cases hb1 : b ≠ 1
    · rw [if_pos hb1, if_pos hb1]
      rfl
    · rw [if_neg hb1, if_neg hb1]
      have hrl1 := sim_read_length fs hleg 3 hs1
      cases h1 : a_read_length (List.flatten fs) p1 3 with
      | error e =>
        rw [h1, SimRes_error] at hrl1
        rw [hrl1]
        rfl
      | ok q1 =>
        obtain ⟨hl1, p2⟩ := q1
        rw [h1, SimRes_ok] at hrl1
        obtain ⟨c2, s2, hok2, hs2⟩ := hrl1
        rw [hok2]
        dsimp only
        have hsk1 := sim_seek fs hs2 34 hl1
        cases h2 : a_seek p2 34 hl1 with
        | error e =>
          rw [h2] at hsk1
          rw [hsk1]
          rfl
        | ok q2 =>
          obtain ⟨p3, hl2⟩ := q2
          rw [h2] at hsk1
          obtain ⟨c3, s3, hok3, hs3⟩ := hsk1
          rw [hok3]
          dsimp only
          cases h3 : check_length 1 hl2 with
          | error e => rfl
          | ok hl3 =>
            dsimp only
            have hrl2 := sim_read_length fs hleg 1 hs3
            cases h4 : a_read_length (List.flatten fs) p3 1 with
            | error e =>
              rw [h4, SimRes_error] at hrl2
              rw [hrl2]
              rfl
            | ok q3 =>
              obtain ⟨len1, p4⟩ := q3
              rw [h4, SimRes_ok] at hrl2
              obtain ⟨c4, s4, hok4, hs4⟩ := hrl2
              rw [hok4]
              dsimp only
              have hsk2 := sim_seek fs hs4 len1 hl3
              cases h5 : a_seek p4 len1 hl3 with
              | error e =>
                rw [h5] at hsk2
                rw [hsk2]
                rfl
              | ok q4 =>
                obtain ⟨p5, hl4⟩ := q4
                rw [h5] at hsk2
                obtain ⟨c5, s5, hok5, hs5⟩ := hsk2
                rw [hok5]
                dsimp only
                cases h6 : check_length 2 hl4 with
                | error e => rfl
                | ok hl5 =>
                  dsimp only
                  have hrl3 := sim_read_length fs hleg 2 hs5
                  cases h7 : a_read_length (List.flatten fs) p5 2 with
                  | error e =>
                    rw [h7, SimRes_error] at hrl3
                    rw [hrl3]
                    rfl
                  | ok q5 =>
                    obtain ⟨len2, p6⟩ := q5
                    rw [h7, SimRes_ok] at hrl3
                    obtain ⟨c6, s6, hok6, hs6⟩ := hrl3
                    rw [hok6]
                    dsimp only
                    have hsk3 := sim_seek fs hs6 len2 hl5
                    cases h8 : a_seek p6 len2 hl5 with
                    | error e =>
                      rw [h8] at hsk3
                      rw [hsk3]
                      rfl
                    | ok q6 =>
                      obtain ⟨p7, hl6⟩ := q6
                      rw [h8] at hsk3
                      obtain ⟨c7, s7, hok7, hs7⟩ := hsk3
                      rw [hok7]
                      dsimp only
                      cases h9 : check_length 1 hl6 with
                      | error e => rfl
                      | ok hl7 =>
                        dsimp only
                        have hrl4 := sim_read_length fs hleg 1 hs7
                        cases h10 : a_read_length (List.flatten fs) p7 1 with
                        | error e =>
                          rw [h10, SimRes_error] at hrl4
                          rw [hrl4]
                          rfl
                        | ok q7 =>
                          obtain ⟨len3, p8⟩ := q7
                          rw [h10, SimRes_ok] at hrl4
                          obtain ⟨c8, s8, hok8, hs8⟩ := hrl4
                          rw [hok8]
                          dsimp only
                          have hsk4 := sim_seek fs hs8 len3 hl7
                          cases h11 : a_seek p8 len3 hl7 with
                          | error e =>
                            rw [h11] at hsk4
                            rw [hsk4]
                            rfl
                          | ok q8 =>
                            obtain ⟨p9, hl8⟩ := q8
                            rw [h11] at hsk4
                            obtain ⟨c9, s9, hok9, hs9⟩ := hsk4
                            rw [hok9]
                            dsimp only
                            by_cases hz : hl8 = 0
                            · rw [if_pos hz, if_pos hz]
                              rfl
                            · rw [if_neg hz, if_neg hz]
                              cases h12 : check_length 2 hl8 with
                              | error e => rfl
                              | ok hl9 =>
                                dsimp only
                                have hrl5 := sim_read_length fs hleg 2 hs9
                                cases h13 : a_read_length (List.flatten fs) p9 2 with
                                | error e =>
                                  rw [h13, SimRes_error] at hrl5
                                  rw [hrl5]
                                  rfl
                                | ok q9 =>
                                  obtain ⟨v, p10⟩ := q9
                                  rw [h13, SimRes_ok] at hrl5
                                  obtain ⟨c10, s10, hok10, hs10⟩ := hrl5
                                  rw [hok10]
                                  dsimp only
                                  by_cases hv : hl9 ≠ v
                                  · rw [if_pos hv, if_pos hv]
                                    rfl
                                  · rw [if_neg hv, if_neg hv]
                                    exact sim_extensions_loop fs hleg hs10

theorem SimRes_name_result {fs : List (List Nat)}
    {ra : Except TlsError (List Nat × Nat)}
    {rc : Except TlsError (List Nat × TlsHandshakeReader)}
    (h : SimRes fs ra rc) : name_result rc = name_result ra := by
  cases ra with
  | error e =>
    rw [SimRes_error] at h
    rw [h]
    rfl
  | ok q =>
    obtain ⟨v, p⟩ := q
    rw [SimRes_ok] at h
    obtain ⟨c, s, hok, _⟩ := h
    rw [hok]
    rfl

/-- C1 (amended): for every handshake payload and every legal record
fragmentation of it, `get_server_name` produces the same name (and, on
malformed payloads, the same error) as when the payload is delivered in a
single record.  The raw bytes replayed to the backend are the bytes the
client actually sent, so they differ between fragmentations by exactly the
record headers; see the counterexample. -/
theorem claim_C1 (fs : List (List Nat)) (hleg : legal_frags fs)
    (h1 : 1 ≤ (List.flatten fs).length) (h2 : (List.flatten fs).length ≤ 2 ^ 14) :
    name_result (get_server_name (TlsHandshakeReader.new (frame fs))) =
      name_result (get_server_name (TlsHandshakeReader.new
        (frame [List.flatten fs]))) := by
  have e1 := SimRes_name_result (sim_get_server_name fs hleg)
  have hleg2 : legal_frags [List.flatten fs] := by
    intro f hf
    simp only [List.mem_singleton] at hf
    subst hf
    exact ⟨h1, h2⟩
  have e2 := SimRes_name_result (sim_get_server_name [List.flatten fs] hleg2)
  have hfl : List.flatten [List.flatten fs] = List.flatten fs := by simp
  rw [hfl] at e2
  rw [e1, e2]

/-- C1 witness: a concrete two-fragment split of a 3-byte payload, with the
theorem's hypotheses discharged by computation. -/
theorem claim_C1_witness :
    legal_frags [[1], [2, 3]] ∧
    name_result (get_server_name (TlsHandshakeReader.new (frame [[1], [2, 3]]))) =
      name_result (get_server_name (TlsHandshakeReader.new
        (frame [List.flatten [[1], [2, 3]]]))) :=
  ⟨by decide, claim_C1 [[1], [2, 3]] (by decide) (by decide) (by decide)⟩

/-- C1 counterexample: the example ClientHello delivered in one record versus
split into two records.  Both parses extract the same name `[97]` ("a"), but
the bytes replayed to the backend by `into_source` — the whole buffer — are
different, because the fragmented stream carries an extra record header.  So
the claim's "the bytes replayed to the backend are identical" is false as
stated. -/
theorem claim_C1_counterexample :
    legal_frags [[1], helloBytes.drop 1] ∧
    List.flatten [[1], helloBytes.drop 1] = helloBytes ∧
    get_server_name (TlsHandshakeReader.new (frame [[1], helloBytes.drop 1])) =
      .ok ([97], { source := [], buffer := wireTwo, offset := 64, limit := 64 }) ∧
    get_server_name (TlsHandshakeReader.new (frame [helloBytes])) =
      .ok ([97], { source := [], buffer := wireOne, offset := 59, limit := 59 }) ∧
    (TlsHandshakeReader.into_source
      { source := [], buffer := wireTwo, offset := 64, limit := 64 }).1 ≠
    (TlsHandshakeReader.into_source
      { source := [], buffer := wireOne, offset := 59, limit := 59 }).1 := by
  refine ⟨by decide, by decide, eval_wireTwo, eval_wireOne, by decide⟩

/-! ## The reader cursor relation (claim C3) -/

theorem read_records_ok_lt_aux (fuel : Nat) :
    ∀ s s' : TlsHandshakeReader, s.offset + 1 - s.limit ≤ fuel →
    TlsHandshakeReader.read_records s = .ok s' → s'.offset < s'.limit := by
  induction fuel with
  | zero =>
    intro s s' hm hrr
    have hcond : ¬ s.limit ≤ s.offset := by omega
    rw [TlsHandshakeReader.read_records, dif_neg hcond] at hrr
    cases hrr
    omega
  | succ fuel ih =>
    intro s s' hm hrr
    rw [TlsHandshakeReader.read_records] at hrr
    split at hrr
    · rename_i hcond
      split at hrr
      · cases hrr
      · rename_i q buf src heq2
        split at hrr
        · cases hrr
        · rename_i length hrec
          have hpos := TlsHandshakeReader.record_check_pos hrec
          exact ih _ s' (by simp only; omega) hrr
    · cases hrr
      rename_i hcond
      omega

theorem read_records_ok_lt {s s' : TlsHandshakeReader}
    (h : TlsHandshakeReader.read_records s = .ok s') : s'.offset < s'.limit :=
  read_records_ok_lt_aux (s.offset + 1 - s.limit) s s' (Nat.le_refl _) h

theorem read_ok_le {s : TlsHandshakeReader} {b : Nat} {s' : TlsHandshakeReader}
    (h : TlsHandshakeReader.read s = .ok (b, s')) : s'.offset ≤ s'.limit := by
  unfold TlsHandshakeReader.read at h
  cases hrr : TlsHandshakeReader.read_records s with
  | error e => rw [hrr] at h; cases h
  | ok s1 =>
    rw [hrr] at h
    dsimp only at h
    have hlt := read_records_ok_lt hrr
    cases hf : TlsHandshakeReader.fill_to s1.buffer s1.source (s1.offset + 1) with
    | error e => rw [hf] at h; cases h
    | ok q =>
      obtain ⟨buf, src⟩ := q
      rw [hf] at h
      dsimp only at h
      cases h
      simp only
      omega

theorem read_length_aux_ok_le (n : Nat) :
    ∀ (s : TlsHandshakeReader) (acc v : Nat) (s' : TlsHandshakeReader), 1 ≤ n →
    TlsHandshakeReader.read_length_aux s n acc = .ok (v, s') →
    s'.offset ≤ s'.limit := by
  induction n with
  | zero => intro s acc v s' h1; omega
  | succ m ih =>
    intro s acc v s' h1 h
    rw [TlsHandshakeReader.read_length_aux] at h
    cases hr : TlsHandshakeReader.read s with
    | error e => rw [hr] at h; cases h
    | ok q =>
      obtain ⟨b, s1⟩ := q
      rw [hr] at h
      dsimp only at h
      cases m with
      | zero =>
        rw [TlsHandshakeReader.read_length_aux] at h
        cases h
        exact read_ok_le hr
      | succ m2 =>
        exact ih s1 _ v s' (by omega) h

/-- C3 (amended): after every successful byte read and every successful
big-endian read of at least one byte, the reader satisfies
`offset ≤ limit`.  The claimed full invariant `offset ≤ limit ≤ buffer.len()`
does not hold for all reachable states: a `seek` can push `offset` past
`limit`, and opening a record whose payload is not yet buffered leaves
`limit` beyond `buffer.len()` (see the counterexample). -/
theorem claim_C3 :
    (∀ (s : TlsHandshakeReader) (b : Nat) (s' : TlsHandshakeReader),
      TlsHandshakeReader.read s = .ok (b, s') → s'.offset ≤ s'.limit) ∧
    (∀ (s : TlsHandshakeReader) (n acc v : Nat) (s' : TlsHandshakeReader),
      1 ≤ n → TlsHandshakeReader.read_length_aux s n acc = .ok (v, s') →
      s'.offset ≤ s'.limit) :=
  ⟨fun _ _ _ h => read_ok_le h,
   fun s n acc v s' h1 h => read_length_aux_ok_le n s acc v s' h1 h⟩

/-- C3 witness: a concrete successful read whose final state satisfies
`offset ≤ limit`. -/
theorem claim_C3_witness :
    TlsHandshakeReader.read (TlsHandshakeReader.new [22, 3, 3, 0, 1, 97]) =
      .ok (97, TlsHandshakeReader.mk [] [22, 3, 3, 0, 1, 97] 6 6) ∧
    (TlsHandshakeReader.mk [] [22, 3, 3, 0, 1, 97] 6 6).offset ≤
      (TlsHandshakeReader.mk [] [22, 3, 3, 0, 1, 97] 6 6).limit :=
  ⟨by rw [read_exec_eq]; decide,
   claim_C3.1 (TlsHandshakeReader.new [22, 3, 3, 0, 1, 97]) 97
     (TlsHandshakeReader.mk [] [22, 3, 3, 0, 1, 97] 6 6)
     (by rw [read_exec_eq]; decide)⟩

/-- C3 counterexample: reading one byte of a two-byte record buffers only 6
bytes while `limit` becomes 7, so `limit ≤ buffer.len()` fails in a reachable
state; a subsequent `seek` of 5 bytes pushes `offset` to 11 past `limit` = 7,
so `offset ≤ limit` fails as well. -/
theorem claim_C3_counterexample :
    TlsHandshakeReader.read (TlsHandshakeReader.new [22, 3, 3, 0, 2, 97, 98]) =
      .ok (97, TlsHandshakeReader.mk [98] [22, 3, 3, 0, 2, 97] 6 7) ∧
    ¬ ((TlsHandshakeReader.mk [98] [22, 3, 3, 0, 2, 97] 6 7).offset ≤
         (TlsHandshakeReader.mk [98] [22, 3, 3, 0, 2, 97] 6 7).limit ∧
       (TlsHandshakeReader.mk [98] [22, 3, 3, 0, 2, 97] 6 7).limit ≤
         (TlsHandshakeReader.mk [98] [22, 3, 3, 0, 2, 97] 6 7).buffer.length) ∧
    TlsHandshakeReader.seek
        (TlsHandshakeReader.mk [98] [22, 3, 3, 0, 2, 97] 6 7) 5 100 =
      .ok (TlsHandshakeReader.mk [98] [22, 3, 3, 0, 2, 97] 11 7, 95) ∧
    ¬ (TlsHandshakeReader.mk [98] [22, 3, 3, 0, 2, 97] 11 7).offset ≤
        (TlsHandshakeReader.mk [98] [22, 3, 3, 0, 2, 97] 11 7).limit := by
  refine ⟨by rw [read_exec_eq]; decide, by decide, by decide, by decide⟩

/-! ## Record-header validation (claim C4) -/

theorem read_records_step_error (s : TlsHandshakeReader) (buf src : List Nat)
    (hcond : s.limit ≤ s.offset)
    (hfill : TlsHandshakeReader.fill_to s.buffer s.source (s.limit + 5) =
      .ok (buf, src))
    {e : TlsError} (hrc : TlsHandshakeReader.record_check buf s.limit = .error e) :
    TlsHandshakeReader.read_records s = .error e := by
  rw [TlsHandshakeReader.read_records, dif_pos hcond, hfill]
  dsimp only
  split
  · rename_i e2 heq
    rw [hrc] at heq
    cases heq
    rfl
  · rename_i length heq
    rw [hrc] at heq
    cases heq

theorem read_records_step_ok (s : TlsHandshakeReader) (buf src : List Nat)
    (hcond : s.limit ≤ s.offset)
    (hfill : TlsHandshakeReader.fill_to s.buffer s.source (s.limit + 5) =
      .ok (buf, src))
    {l : Nat} (hrc : TlsHandshakeReader.record_check buf s.limit = .ok l) :
    TlsHandshakeReader.read_records s =
      TlsHandshakeReader.read_records
        (TlsHandshakeReader.mk src buf (s.offset + 5) (s.limit + 5 + l)) := by
  rw [TlsHandshakeReader.read_records, dif_pos hcond, hfill]
  dsimp only
  split
  · rename_i e2 heq
    rw [hrc] at heq
    cases heq
  · rename_i length heq
    rw [hrc] at heq
    cases heq
    rfl

/-- C4: when the reader must start a new record (`offset ≥ limit`, with the
five header bytes buffered): a content type other than 0x16 yields
`unexpected_message` (10); a record length of 0 yields `decode_error` (50); a
length over `2^14` yields `record_overflow` (22); otherwise `offset` advances
by 5 and `limit` by 5 plus the record length.  The header classification
depends only on the bytes at `limit`, `limit+3` and `limit+4`, so the
legacy_version bytes at `limit+1` and `limit+2` are never inspected. -/
theorem claim_C4 (s : TlsHandshakeReader) (buf src : List Nat)
    (hcond : s.limit ≤ s.offset)
    (hfill : TlsHandshakeReader.fill_to s.buffer s.source (s.limit + 5) =
      .ok (buf, src)) :
    (buf.getD s.limit 0 ≠ 22 →
      TlsHandshakeReader.read_records s = .error .UnexpectedMessage ∧
      TlsError.code .UnexpectedMessage = 10) ∧
    (buf.getD s.limit 0 = 22 →
      (TlsHandshakeReader.record_length buf s.limit = 0 →
        TlsHandshakeReader.read_records s = .error .DecodeError ∧
        TlsError.code .DecodeError = 50) ∧
      (2 ^ 14 < TlsHandshakeReader.record_length buf s.limit →
        TlsHandshakeReader.read_records s = .error .RecordOverflow ∧
        TlsError.code .RecordOverflow = 22) ∧
      (1 ≤ TlsHandshakeReader.record_length buf s.limit →
        TlsHandshakeReader.record_length buf s.limit ≤ 2 ^ 14 →
        TlsHandshakeReader.read_records s =
          TlsHandshakeReader.read_records
            (TlsHandshakeReader.mk src buf (s.offset + 5)
              (s.limit + 5 + TlsHandshakeReader.record_length buf s.limit)))) ∧
    (∀ buf2 : List Nat,
      buf2.getD s.limit 0 = buf.getD s.limit 0 →
      buf2.getD (s.limit + 3) 0 = buf.getD (s.limit + 3) 0 →
      buf2.getD (s.limit + 4) 0 = buf.getD (s.limit + 4) 0 →
      TlsHandshakeReader.record_check buf2 s.limit =
        TlsHandshakeReader.record_check buf s.limit) := by
  refine ⟨?_, ?_, ?_⟩
  · intro h22
    refine ⟨?_, rfl⟩
    apply read_records_step_error s buf src hcond hfill
    rw [TlsHandshakeReader.record_check, if_pos h22]
  · intro h22
    refine ⟨?_, ?_, ?_⟩
    · intro hrl
      refine ⟨?_, rfl⟩
      apply read_records_step_error s buf src hcond hfill
      unfold TlsHandshakeReader.record_check
      rw [if_neg (by omega)]
      dsimp only
      rw [if_pos hrl]
    · intro hgt
      refine ⟨?_, rfl⟩
      apply read_records_step_error s buf src hcond hfill
      unfold TlsHandshakeReader.record_check
      rw [if_neg (by omega)]
      dsimp only
      rw [if_neg (by omega), if_pos hgt]
    · intro h1 h2
      apply read_records_step_ok s buf src hcond hfill
      unfold TlsHandshakeReader.record_check
      rw [if_neg (by omega)]
      dsimp only
      rw [if_neg (by omega), if_neg (by omega)]
  · intro buf2 h0 h3 h4
    unfold TlsHandshakeReader.record_check TlsHandshakeReader.record_length
    rw [h0, h3, h4]

/-- C4 witness: a concrete one-byte record header is accepted and advances the
cursors by 5 and 6. -/
theorem claim_C4_witness :
    TlsHandshakeReader.read_records (TlsHandshakeReader.new [22, 3, 3, 0, 1, 97]) =
      TlsHandshakeReader.read_records
        (TlsHandshakeReader.mk [97] [22, 3, 3, 0, 1] 5 6) :=
  (claim_C4 (TlsHandshakeReader.new [22, 3, 3, 0, 1, 97]) [22, 3, 3, 0, 1] [97]
      (by decide) (by decide)).2.1 (by decide) |>.2.2 (by decide) (by decide)

/-! ## Connection-level claims -/

/-- C2 (amended): the 10-second timer wraps only `get_server_name` (ClientHello
parsing): its expiry makes `connect_backend` fail with `user_canceled` (90),
which the handler writes as a fatal alert; backend dialing, PROXY-header
emission and buffered replay are outside any timer, so the result of
`connect_backend` is independent of their durations. -/
theorem claim_C2 (stream : List Nat) (loc remote : SocketAddr) (env : Env) :
    (10 < env.parseSecs →
      connect_backend stream loc remote env = .error .UserCanceled ∧
      TlsError.code .UserCanceled = 90 ∧
      ∀ w, handle_connection stream loc remote env w =
        { clientWritten := alertBytes .UserCanceled, spliced := false }) ∧
    (∀ d w, connect_backend stream loc remote
        { env with dialSecs := d, writeSecs := w } =
      connect_backend stream loc remote env) := by
  constructor
  · intro hts
    have hcb : connect_backend stream loc remote env = .error .UserCanceled := by
      unfold connect_backend
      rw [if_pos hts]
    refine ⟨hcb, rfl, ?_⟩
    intro w
    unfold handle_connection
    rw [hcb]
  · intro d w
    rfl

/-- C2 witness: a parse that takes 11 seconds is cut off with `user_canceled`
and the client gets the corresponding alert. -/
theorem claim_C2_witness :
    connect_backend wireOne (SocketAddr.V4 "198.51.100.1" 443)
      (SocketAddr.V4 "203.0.113.7" 51000)
      (Env.mk (fun _ => none) (fun _ => false) false false 11 0 0) =
      .error .UserCanceled ∧
    TlsError.code .UserCanceled = 90 ∧
    handle_connection wireOne (SocketAddr.V4 "198.51.100.1" 443)
      (SocketAddr.V4 "203.0.113.7" 51000)
      (Env.mk (fun _ => none) (fun _ => false) false false 11 0 0) true =
      { clientWritten := [21, 3, 3, 0, 2, 2, 90], spliced := false } := by
  have h := (claim_C2 wireOne (SocketAddr.V4 "198.51.100.1" 443)
    (SocketAddr.V4 "203.0.113.7" 51000)
    (Env.mk (fun _ => none) (fun _ => false) false false 11 0 0)).1
    (by decide)
  exact ⟨h.1, h.2.1, h.2.2 true⟩

/-- C2 counterexample: with parsing instantaneous but the backend dial taking
11 seconds — more than the whole 10-second budget the claim says bounds the
handshake-through-resolve phase — `connect_backend` still succeeds and no
`user_canceled` alert is produced, because the timer covers only
`get_server_name`. -/
theorem claim_C2_counterexample :
    (Env.mk (fun _ => none) (fun _ => false) false false 0 11 0).dialSecs = 11 ∧
    10 < (Env.mk (fun _ => none) (fun _ => false) false false 0 11 0).dialSecs ∧
    connect_backend wireOne (SocketAddr.V4 "198.51.100.1" 443)
      (SocketAddr.V4 "203.0.113.7" 51000)
      (Env.mk (fun _ => none) (fun _ => false) false false 0 11 0) =
      .ok ([], wireOne) := by
  refine ⟨rfl, by decide, ?_⟩
  unfold connect_backend
  dsimp only
  rw [if_neg (by decide), eval_wireOne]
  rfl

/-- C7: the `map_err` on the backend connect sends `NotFound`,
`PermissionDenied` and `ConnectionRefused` to `unrecognized_name` (112) and
everything else to `internal_error` (80); and once the connect has succeeded,
failures of the PROXY-header write or of the buffered replay give
`internal_error`, never `unrecognized_name`. -/
theorem claim_C7 (stream : List Nat) (loc remote : SocketAddr) (env : Env)
    (name : List Nat) (s2 : TlsHandshakeReader)
    (hps : env.parseSecs ≤ 10)
    (hgsn : get_server_name (TlsHandshakeReader.new stream) = .ok (name, s2)) :
    (∀ k, env.connectResult name = some k →
      connect_backend stream loc remote env = .error (backend_error k)) ∧
    backend_error .NotFound = .UnrecognizedName ∧
    backend_error .PermissionDenied = .UnrecognizedName ∧
    backend_error .ConnectionRefused = .UnrecognizedName ∧
    backend_error .Other = .InternalError ∧
    TlsError.code .UnrecognizedName = 112 ∧
    TlsError.code .InternalError = 80 ∧
    (env.connectResult name = none →
      ((env.sendProxyV1 name = true ∧ env.proxyWriteFails = true) ∨
        env.replayWriteFails = true) →
      connect_backend stream loc remote env = .error .InternalError) := by
  refine ⟨?_, rfl, rfl, rfl, rfl, rfl, rfl, ?_⟩
  · intro k hk
    unfold connect_backend
    dsimp only
    rw [if_neg (by omega), hgsn]
    dsimp only
    rw [hk]
  · intro hnone hfail
    unfold connect_backend
    dsimp only
    rw [if_neg (by omega), hgsn]
    dsimp only
    rw [hnone]
    dsimp only
    rcases hfail with ⟨hsp, hpw⟩ | hrw
    · rw [if_pos hsp, if_pos hpw]
    · by_cases hsp : env.sendProxyV1 name = true
      · rw [if_pos hsp]
        by_cases hpw : env.proxyWriteFails = true
        · rw [if_pos hpw]
        · rw [if_neg hpw, if_pos hrw]
      · rw [if_neg hsp, if_pos hrw]

/-- C7 witness: a missing backend socket for name "a" maps to
`unrecognized_name`, and a replay-write failure after a successful connect
maps to `internal_error`. -/
theorem claim_C7_witness :
    connect_backend wireOne (SocketAddr.V4 "198.51.100.1" 443)
      (SocketAddr.V4 "203.0.113.7" 51000)
      (Env.mk (fun _ => some .NotFound) (fun _ => false) false false 0 0 0) =
      .error .UnrecognizedName ∧
    connect_backend wireOne (SocketAddr.V4 "198.51.100.1" 443)
      (SocketAddr.V4 "203.0.113.7" 51000)
      (Env.mk (fun _ => none) (fun _ => false) false true 0 0 0) =
      .error .InternalError := by
  constructor
  · exact (claim_C7 wireOne (SocketAddr.V4 "198.51.100.1" 443)
      (SocketAddr.V4 "203.0.113.7" 51000)
      (Env.mk (fun _ => some .NotFound) (fun _ => false) false false 0 0 0)
      [97] (TlsHandshakeReader.mk [] wireOne 59 59)
      (by decide) eval_wireOne).1 .NotFound rfl
  · exact (claim_C7 wireOne (SocketAddr.V4 "198.51.100.1" 443)
      (SocketAddr.V4 "203.0.113.7" 51000)
      (Env.mk (fun _ => none) (fun _ => false) false true 0 0 0)
      [97] (TlsHandshakeReader.mk [] wireOne 59 59)
      (by decide) eval_wireOne).2.2.2.2.2.2.2 rfl (Or.inr rfl)

/-- C8: the PROXY v1 header is written to the backend iff
`<name>/send-proxy-v1` exists, it precedes all replayed bytes, and it is
exactly `PROXY <PROTO> <src-ip> <dst-ip> <src-port> <dst-port>\r\n` with
PROTO chosen by the remote peer's address family, src the remote endpoint
and dst the local endpoint (the claim's `specProxyLine`). -/
theorem claim_C8 (stream : List Nat) (loc remote : SocketAddr) (env : Env)
    (name : List Nat) (s2 : TlsHandshakeReader)
    (hps : env.parseSecs ≤ 10)
    (hgsn : get_server_name (TlsHandshakeReader.new stream) = .ok (name, s2))
    (hconn : env.connectResult name = none)
    (hpw : env.proxyWriteFails = false)
    (hrw : env.replayWriteFails = false) :
    proxy_header remote loc = specProxyLine remote loc ∧
    connect_backend stream loc remote env =
      .ok (s2.source,
        (if env.sendProxyV1 name then strBytes (specProxyLine remote loc)
         else []) ++ s2.buffer) := by
  constructor
  · rfl
  · unfold connect_backend
    dsimp only
    rw [if_neg (by omega), hgsn]
    dsimp only
    rw [hconn]
    dsimp only
    by_cases hsp : env.sendProxyV1 name = true
    · rw [if_pos hsp, if_neg (by rw [hpw]; exact Bool.false_ne_true),
        if_neg (by rw [hrw]; exact Bool.false_ne_true), if_pos hsp]
      rfl
    · rw [if_neg hsp, if_neg (by rw [hrw]; exact Bool.false_ne_true), if_neg hsp]
      simp

/-- C8 witness: the spec's scenario 2.  Client 203.0.113.7:51000 reaches
proxy-local 198.51.100.1:443 with `send-proxy-v1` present; the backend
receives exactly the PROXY line followed by the replayed ClientHello. -/
theorem claim_C8_witness :
    connect_backend wireOne (SocketAddr.V4 "198.51.100.1" 443)
      (SocketAddr.V4 "203.0.113.7" 51000)
      (Env.mk (fun _ => none) (fun _ => true) false false 0 0 0) =
      .ok ([],
        strBytes (specProxyLine (SocketAddr.V4 "203.0.113.7" 51000)
          (SocketAddr.V4 "198.51.100.1" 443)) ++ wireOne) ∧
    specProxyLine (SocketAddr.V4 "203.0.113.7" 51000)
      (SocketAddr.V4 "198.51.100.1" 443) =
      "PROXY TCP4 203.0.113.7 198.51.100.1 51000 443\r\n" := by
  constructor
  · exact (claim_C8 wireOne (SocketAddr.V4 "198.51.100.1" 443)
      (SocketAddr.V4 "203.0.113.7" 51000)
      (Env.mk (fun _ => none) (fun _ => true) false false 0 0 0)
      [97] (TlsHandshakeReader.mk [] wireOne 59 59)
      (by decide) eval_wireOne rfl rfl rfl).2
  · rfl

/-- C9: on every handshake-phase failure the handler writes to the client
exactly the 7 bytes 0x15 0x03 0x03 0x00 0x02 0x02 followed by the error's
alert description, once; the outcome is the same whether or not that write
succeeds; and the connection ends without reaching the backend splice. -/
theorem claim_C9 (stream : List Nat) (loc remote : SocketAddr) (env : Env)
    (e : TlsError)
    (herr : connect_backend stream loc remote env = .error e) :
    (∀ w, handle_connection stream loc remote env w =
      { clientWritten := [21, 3, 3, 0, 2, 2, TlsError.code e],
        spliced := false }) ∧
    handle_connection stream loc remote env true =
      handle_connection stream loc remote env false := by
  constructor
  · intro w
    unfold handle_connection
    rw [herr]
    rfl
  · rfl

/-- C9 witness: an empty client stream fails parsing with `decode_error`; the
handler writes exactly `15 03 03 00 02 02 32` (50 = 0x32) and does not
splice, whether or not the alert write succeeds. -/
theorem claim_C9_witness :
    handle_connection [] (SocketAddr.V4 "198.51.100.1" 443)
      (SocketAddr.V4 "203.0.113.7" 51000)
      (Env.mk (fun _ => none) (fun _ => false) false false 0 0 0) true =
      { clientWritten := [21, 3, 3, 0, 2, 2, 50], spliced := false } ∧
    handle_connection [] (SocketAddr.V4 "198.51.100.1" 443)
      (SocketAddr.V4 "203.0.113.7" 51000)
      (Env.mk (fun _ => none) (fun _ => false) false false 0 0 0) true =
    handle_connection [] (SocketAddr.V4 "198.51.100.1" 443)
      (SocketAddr.V4 "203.0.113.7" 51000)
      (Env.mk (fun _ => none) (fun _ => false) false false 0 0 0) false := by
  have hcb : connect_backend [] (SocketAddr.V4 "198.51.100.1" 443)
      (SocketAddr.V4 "203.0.113.7" 51000)
      (Env.mk (fun _ => none) (fun _ => false) false false 0 0 0) =
      .error .DecodeError := by
    unfold connect_backend
    dsimp only
    rw [if_neg (by decide), eval_empty]
  have h := claim_C9 [] (SocketAddr.V4 "198.51.100.1" 443)
    (SocketAddr.V4 "203.0.113.7" 51000)
    (Env.mk (fun _ => none) (fun _ => false) false false 0 0 0) .DecodeError hcb
  exact ⟨h.1 true, h.2⟩

/-! ## The Name Canonicalizer characterization (claim C5) -/

theorem folded_cons (b : Nat) (rest : List Nat) :
    folded (b :: rest) = to_ascii_lowercase b :: folded rest := rfl

theorem folded_length (bytes : List Nat) : (folded bytes).length = bytes.length := by
  simp [folded]

theorem goodFrom_nil (start : Bool) : goodFrom [] start ↔ start = false := by
  unfold goodFrom
  cases start <;> simp

theorem goodFrom_cons_iff (b : Nat) (rest : List Nat) (start : Bool)
    (hal : allowedByte (to_ascii_lowercase b))
    (hns : ¬ (start = true ∧
      (to_ascii_lowercase b = 45 ∨ to_ascii_lowercase b = 46))) :
    goodFrom (b :: rest) start ↔
      goodFrom rest (decide (to_ascii_lowercase b = 46)) := by
  have hlen : (b :: rest).length = rest.length + 1 := rfl
  constructor
  · rintro ⟨h1, h2, h3⟩
    refine ⟨?_, ?_, ?_⟩
    · intro i hi
      have hx := h1 (i + 1) (by omega)
      rw [folded_cons, List.getD_cons_succ] at hx
      exact hx
    · intro i hi hb
      have hx := h2 (i + 1) (by omega) ?_
      · rw [folded_cons, List.getD_cons_succ] at hx
        exact hx
      · right
        refine ⟨by omega, ?_⟩
        rcases hb with ⟨hi0, hd⟩ | ⟨hipos, hd⟩
        · subst hi0
          rw [folded_cons]
          simp only [Nat.add_sub_cancel, List.getD_cons_zero]
          exact of_decide_eq_true hd
        · rw [folded_cons]
          have hisucc : i + 1 - 1 = (i - 1) + 1 := by omega
          rw [hisucc, List.getD_cons_succ]
          exact hd
    · intro hb
      rcases hb with ⟨hr0, hst⟩ | ⟨hrpos, hd⟩
      · apply h3
        right
        refine ⟨by omega, ?_⟩
        rw [folded_cons, hlen]
        simp only [Nat.add_sub_cancel, hr0, List.getD_cons_zero]
        exact of_decide_eq_true hst
      · apply h3
        right
        refine ⟨by omega, ?_⟩
        rw [folded_cons, hlen]
        have hx : rest.length + 1 - 1 = (rest.length - 1) + 1 := by omega
        rw [hx, List.getD_cons_succ]
        exact hd
  · rintro ⟨h1, h2, h3⟩
    refine ⟨?_, ?_, ?_⟩
    · intro i hi
      cases i with
      | zero =>
        rw [folded_cons, List.getD_cons_zero]
        exact hal
      | succ j =>
        rw [folded_cons, List.getD_cons_succ]
        exact h1 j (by omega)
    · intro i hi hb
      cases i with
      | zero =>
        rw [folded_cons, List.getD_cons_zero]
        rcases hb with ⟨_, hst⟩ | ⟨hipos, _⟩
        · constructor
          · intro hc
            exact hns ⟨hst, Or.inr hc⟩
          · intro hc
            exact hns ⟨hst, Or.inl hc⟩
        · omega
      | succ j =>
        rw [folded_cons, List.getD_cons_succ]
        rcases hb with ⟨hi0, _⟩ | ⟨_, hd⟩
        · cases hi0
        · rw [folded_cons, Nat.add_sub_cancel] at hd
          cases j with
          | zero =>
            rw [List.getD_cons_zero] at hd
            exact h2 0 (by omega) (Or.inl ⟨rfl, decide_eq_true hd⟩)
          | succ k =>
            rw [List.getD_cons_succ] at hd
            exact h2 (k + 1) (by omega) (Or.inr ⟨by omega, by
              simpa using hd⟩)
    · intro hb
      rcases hb with ⟨h0, _⟩ | ⟨_, hd⟩
      · rw [hlen] at h0
        omega
      · rw [hlen, folded_cons, Nat.add_sub_cancel] at hd
        cases hr : rest.length with
        | zero =>
          rw [hr, List.getD_cons_zero] at hd
          exact h3 (Or.inl ⟨hr, decide_eq_true hd⟩)
        | succ m =>
          rw [hr, List.getD_cons_succ] at hd
          refine h3 (Or.inr ⟨by omega, ?_⟩)
          rw [hr]
          simpa using hd

theorem canonicalize_from_spec (bytes : List Nat) :
    ∀ (name : List Nat) (start : Bool),
    (goodFrom bytes start →
      canonicalize_from bytes name start = .ok (name ++ folded bytes)) ∧
    (¬ goodFrom bytes start →
      canonicalize_from bytes name start = .error .UnrecognizedName) := by
  induction bytes with
  | nil =>
    intro name start
    constructor
    · intro hg
      rw [goodFrom_nil] at hg
      subst hg
      rw [canonicalize_from]
      simp [folded]
    · intro hg
      rw [goodFrom_nil] at hg
      have hst : start = true := by
        cases start
        · exact absurd rfl hg
        · rfl
      subst hst
      rw [canonicalize_from]
      simp
  | cons b rest ih =>
    intro name start
    by_cases hns : start = true ∧
        (to_ascii_lowercase b = 45 ∨ to_ascii_lowercase b = 46)
    · have hcf : canonicalize_from (b :: rest) name start =
          .error .UnrecognizedName := by
        rw [canonicalize_from]
        rw [if_pos hns]
      refine ⟨?_, fun _ => hcf⟩
      intro hg
      exfalso
      obtain ⟨h1, h2, h3⟩ := hg
      have hx := h2 0 (by simp) (Or.inl ⟨rfl, hns.1⟩)
      rw [folded_cons, List.getD_cons_zero] at hx
      rcases hns.2 with h | h
      · exact hx.2 h
      · exact hx.1 h
    · by_cases hal : (97 ≤ to_ascii_lowercase b ∧ to_ascii_lowercase b ≤ 122) ∨
          (48 ≤ to_ascii_lowercase b ∧ to_ascii_lowercase b ≤ 57) ∨
          to_ascii_lowercase b = 45 ∨ to_ascii_lowercase b = 46
      · have hstep : canonicalize_from (b :: rest) name start =
            canonicalize_from rest (name ++ [to_ascii_lowercase b])
              (decide (to_ascii_lowercase b = 46)) := by
          rw [canonicalize_from]
          rw [if_neg hns, if_pos hal]
        have hiff := goodFrom_cons_iff b rest start hal hns
        constructor
        · intro hg
          rw [hiff] at hg
          rw [hstep, ((ih (name ++ [to_ascii_lowercase b])
            (decide (to_ascii_lowercase b = 46))).1 hg)]
          rw [folded_cons]
          simp
        · intro hg
          rw [hiff] at hg
          rw [hstep]
          exact (ih _ _).2 hg
      · have hcf : canonicalize_from (b :: rest) name start =
            .error .UnrecognizedName := by
          rw [canonicalize_from]
          rw [if_neg hns, if_neg hal]
        refine ⟨?_, fun _ => hcf⟩
        intro hg
        exfalso
        obtain ⟨h1, _, _⟩ := hg
        have hx := h1 0 (by simp)
        rw [folded_cons, List.getD_cons_zero] at hx
        exact hal hx

theorem goodName_iff (bytes : List Nat) :
    goodName bytes ↔ bytes.length ≤ 254 ∧ goodFrom bytes true := by
  unfold goodName goodFrom labelBoundary
  constructor
  · rintro ⟨hlen, h1, h2, h3⟩
    refine ⟨hlen, h1, ?_, ?_⟩
    · intro i hi hb
      apply h2 i hi
      rcases hb with ⟨h0, _⟩ | hr
      · exact Or.inl h0
      · exact Or.inr hr
    · intro hb
      apply h3
      rcases hb with ⟨h0, _⟩ | hr
      · exact Or.inl h0
      · exact Or.inr hr
  · rintro ⟨hlen, h1, h2, h3⟩
    refine ⟨hlen, h1, ?_, ?_⟩
    · intro i hi hb
      apply h2 i hi
      rcases hb with h0 | hr
      · exact Or.inl ⟨h0, rfl⟩
      · exact Or.inr hr
    · intro hb
      apply h3
      rcases hb with h0 | hr
      · exact Or.inl ⟨h0, rfl⟩
      · exact Or.inr hr

/-- C5: the canonicalizer succeeds on a host_name entry's bytes iff the entry
is at most 254 bytes and, after folding uppercase ASCII to lowercase, every
byte is in [a-z0-9.-], no byte at a label boundary is '.' or '-', and the
name does not end at a label boundary; on success it returns exactly the
lowercase-folded bytes, and on any violation it fails with
`unrecognized_name` (112). -/
theorem claim_C5 (bytes : List Nat) :
    (goodName bytes → canonicalize bytes = .ok (folded bytes)) ∧
    (¬ goodName bytes → canonicalize bytes = .error .UnrecognizedName) ∧
    TlsError.code .UnrecognizedName = 112 := by
  refine ⟨?_, ?_, rfl⟩
  · intro hg
    rw [goodName_iff] at hg
    obtain ⟨hlen, hgf⟩ := hg
    unfold canonicalize
    rw [if_neg (by omega), (canonicalize_from_spec bytes [] true).1 hgf]
    simp
  · intro hg
    rw [goodName_iff] at hg
    unfold canonicalize
    by_cases hlen : 254 < bytes.length
    · rw [if_pos hlen]
    · rw [if_neg hlen]
      apply (canonicalize_from_spec bytes [] true).2
      intro hgf
      exact hg ⟨by omega, hgf⟩

/-- C5 witness: "aB.c" canonicalizes to "ab.c"; ".a" (leading dot) is
rejected with `unrecognized_name`. -/
theorem claim_C5_witness :
    goodName [97, 66, 46, 99] ∧
    canonicalize [97, 66, 46, 99] = .ok [97, 98, 46, 99] ∧
    ¬ goodName [46, 97] ∧
    canonicalize [46, 97] = .error .UnrecognizedName :=
  ⟨by decide, (claim_C5 [97, 66, 46, 99]).1 (by decide), by decide,
   (claim_C5 [46, 97]).2.1 (by decide)⟩

/-! ## Name bytes are always ASCII (claim C10) -/

theorem read_name_all (n : Nat) :
    ∀ (s : TlsHandshakeReader) (name : List Nat) (fl : Bool) (nm : List Nat)
      (fl' : Bool) (s' : TlsHandshakeReader),
    read_name s n name fl = .ok (nm, fl', s') →
    (∀ x ∈ name, allowedByte x) → ∀ x ∈ nm, allowedByte x := by
  induction n with
  | zero =>
    intro s name fl nm fl' s' h hn
    rw [read_name] at h
    cases h
    exact hn
  | succ m ih =>
    intro s name fl nm fl' s' h hn
    rw [read_name] at h
    split at h
    · cases h
    · rename_i b0 s1 heq
      dsimp only at h
      split at h
      · cases h
      · split at h
        · rename_i hal
          refine ih s1 (name ++ [to_ascii_lowercase b0]) _ nm fl' s' h ?_
          intro x hx
          rcases List.mem_append.1 hx with hx | hx
          · exact hn x hx
          · rw [List.mem_singleton] at hx
            subst hx
            exact hal
        · cases h

theorem snl_all_aux (fuel : Nat) :
    ∀ (s : TlsHandshakeReader) (length : Nat) (nm : List Nat)
      (s' : TlsHandshakeReader), length < fuel →
    server_name_list s length = .ok (nm, s') → ∀ x ∈ nm, allowedByte x := by
  induction fuel with
  | zero => intro s length nm s' h; omega
  | succ fuel ih =>
    intro s length nm s' hlt h
    rw [server_name_list] at h
    split at h
    · cases h
    · split at h
      · split at h
        · cases h
        · split at h
          · cases h
          · split at h
            · split at h
              · exact ih _ _ nm s' (by omega) h
              · cases h
            · split at h
              · split at h
                · cases h
                · split at h
                  · cases h
                  · rename_i heq3
                    split at h
                    · cases h
                    · cases h
                      exact read_name_all _ _ [] true _ _ _ heq3
                        (by intro x hx; cases hx)
              · cases h
      · cases h

theorem ext_all_aux (fuel : Nat) :
    ∀ (s : TlsHandshakeReader) (hl : Nat) (nm : List Nat)
      (s' : TlsHandshakeReader), hl < fuel →
    extensions_loop s hl = .ok (nm, s') → ∀ x ∈ nm, allowedByte x := by
  induction fuel with
  | zero => intro s hl nm s' h; omega
  | succ fuel ih =>
    intro s hl nm s' hlt h
    rw [extensions_loop] at h
    split at h
    · cases h
    · split at h
      · split at h
        · cases h
        · split at h
          · cases h
          · split at h
            · split at h
              · exact ih _ _ nm s' (by omega) h
              · cases h
            · split at h
              · split at h
                · split at h
                  · cases h
                  · split at h
                    · cases h
                    · exact snl_all_aux _ _ _ nm s' (Nat.lt_succ_self _) h
                · cases h
              · cases h
      · cases h

/-- C10: every byte of a name returned by `get_server_name` was pushed by the
validation loop, so it is in [a-z0-9.-] and in particular ASCII (< 128): the
`String::from_utf8_unchecked` in the source always receives valid UTF-8, and
the returned bytes are exactly the validated name. -/
theorem claim_C10 (s : TlsHandshakeReader) (nm : List Nat)
    (s' : TlsHandshakeReader)
    (h : get_server_name s = .ok (nm, s')) :
    ∀ x ∈ nm, allowedByte x ∧ x < 128 := by
  have hall : ∀ x ∈ nm, allowedByte x := by
    unfold get_server_name at h
    repeat' split at h
    any_goals cases h
    all_goals exact ext_all_aux _ _ _ nm s' (Nat.lt_succ_self _) h
  intro x hx
  refine ⟨hall x hx, ?_⟩
  have := hall x hx
  unfold allowedByte at this
  omega

/-- C10 witness: the concrete parse of the example ClientHello returns the
single byte 97 ('a'), which is allowed and ASCII. -/
theorem claim_C10_witness : allowedByte 97 ∧ 97 < 128 :=
  claim_C10 (TlsHandshakeReader.new wireOne) [97]
    (TlsHandshakeReader.mk [] wireOne 59 59) eval_wireOne 97 (by decide)

/-! ## Length budgets (claim C6) -/

theorem a_read_ok_succ {payload : List Nat} {p b p2 : Nat}
    (h : a_read payload p = .ok (b, p2)) : p2 = p + 1 := by
  unfold a_read at h
  split at h
  · cases h
    rfl
  · cases h

theorem a_read_length_aux_adds (n : Nat) :
    ∀ (payload : List Nat) (p acc v p2 : Nat),
    a_read_length_aux payload p n acc = .ok (v, p2) → p2 = p + n := by
  induction n with
  | zero =>
    intro payload p acc v p2 h
    rw [a_read_length_aux] at h
    cases h
    rfl
  | succ m ih =>
    intro payload p acc v p2 h
    rw [a_read_length_aux] at h
    split at h
    · cases h
    · rename_i b p1 heq
      have h1 := a_read_ok_succ heq
      have h2 := ih _ _ _ _ _ h
      omega

theorem a_read_name_adds (n : Nat) :
    ∀ (payload : List Nat) (p : Nat) (name : List Nat) (fl : Bool)
      (nm : List Nat) (fl2 : Bool) (p2 : Nat),
    a_read_name payload p n name fl = .ok (nm, fl2, p2) → p2 = p + n := by
  induction n with
  | zero =>
    intro payload p name fl nm fl2 p2 h
    rw [a_read_name] at h
    cases h
    rfl
  | succ m ih =>
    intro payload p name fl nm fl2 p2 h
    rw [a_read_name] at h
    split at h
    · cases h
    · rename_i b0 p1 heq
      have h1 := a_read_ok_succ heq
      dsimp only at h
      split at h
      · cases h
      · split at h
        · have h2 := ih _ _ _ _ _ _ _ h
          omega
        · cases h

theorem a_snl_le_aux (fuel : Nat) :
    ∀ (payload : List Nat) (p length : Nat) (nm : List Nat) (p2 : Nat),
    length < fuel →
    a_server_name_list payload p length = .ok (nm, p2) → p2 ≤ p + length := by
  induction fuel with
  | zero => intro payload p length nm p2 h; omega
  | succ fuel ih =>
    intro payload p length nm p2 hlt h
    rw [a_server_name_list] at h
    split at h
    · cases h
    · split at h
      · split at h
        · cases h
        · rename_i ntype p1 heq
          have h1 := a_read_ok_succ heq
          split at h
          · cases h
          · rename_i nlen pb heq2
            have h2 := a_read_length_aux_adds 2 _ _ _ _ _ heq2
            split at h
            · split at h
              · have h3 := ih _ _ _ _ _ (by omega) h
                omega
              · cases h
            · split at h
              · split at h
                · cases h
                · split at h
                  · cases h
                  · rename_i heq3
                    have h3 := a_read_name_adds _ _ _ _ _ _ _ _ heq3
                    split at h
                    · cases h
                    · cases h
                      omega
              · cases h
      · cases h

theorem a_ext_le_aux (fuel : Nat) :
    ∀ (payload : List Nat) (p hl : Nat) (nm : List Nat) (p2 : Nat),
    hl < fuel →
    a_extensions_loop payload p hl = .ok (nm, p2) → p2 ≤ p + hl := by
  induction fuel with
  | zero => intro payload p hl nm p2 h; omega
  | succ fuel ih =>
    intro payload p hl nm p2 hlt h
    rw [a_extensions_loop] at h
    split at h
    · cases h
    · split at h
      · split at h
        · cases h
        · rename_i ext p1 heq
          have h1 := a_read_length_aux_adds 2 _ _ _ _ _ heq
          split at h
          · cases h
          · rename_i len pb heq2
            have h2 := a_read_length_aux_adds 2 _ _ _ _ _ heq2
            split at h
            · split at h
              · have h3 := ih _ _ _ _ _ (by omega) h
                omega
              · cases h
            · split at h
              · split at h
                · split at h
                  · cases h
                  · rename_i v p3 heq3
                    have h3 := a_read_length_aux_adds 2 _ _ _ _ _ heq3
                    split at h
                    · cases h
                    · have h4 := a_snl_le_aux (len - 2 + 1) _ _ _ _ _
                        (Nat.lt_succ_self _) h
                      omega
                · cases h
              · cases h
      · cases h

theorem read_name_consumes (fs : List (List Nat)) (hleg : legal_frags fs)
    {c p n : Nat} {s : TlsHandshakeReader} {name : List Nat} {fl : Bool}
    {nm : List Nat} {fl' : Bool} {s' : TlsHandshakeReader}
    (hs : Sim fs c p s)
    (h : read_name s n name fl = .ok (nm, fl', s')) :
    ∃ c' p', Sim fs c' p' s' ∧ p' = p + n := by
  have hsim := sim_read_name fs hleg n name fl c p s hs
  cases ha : a_read_name (List.flatten fs) p n name fl with
  | error e =>
    rw [ha] at hsim
    have h2 : read_name s n name fl = Except.error e := hsim
    rw [h] at h2
    cases h2
  | ok t =>
    obtain ⟨nm2, fl2, p2⟩ := t
    rw [ha] at hsim
    obtain ⟨c2, s2, hok, hs2⟩ := hsim
    rw [h] at hok
    cases hok
    exact ⟨c2, p2, hs2, a_read_name_adds n _ _ _ _ _ _ _ ha⟩

theorem server_name_list_consumes (fs : List (List Nat)) (hleg : legal_frags fs)
    {c p length : Nat} {s : TlsHandshakeReader}
    {nm : List Nat} {s' : TlsHandshakeReader}
    (hs : Sim fs c p s)
    (h : server_name_list s length = .ok (nm, s')) :
    ∃ c' p', Sim fs c' p' s' ∧ p' ≤ p + length := by
  have hsim := @sim_server_name_list fs hleg length c p s hs
  cases ha : a_server_name_list (List.flatten fs) p length with
  | error e =>
    rw [ha] at hsim
    have h2 : server_name_list s length = Except.error e := hsim
    rw [h] at h2
    cases h2
  | ok t =>
    obtain ⟨nm2, p2⟩ := t
    rw [ha] at hsim
    obtain ⟨c2, s2, hok, hs2⟩ := hsim
    rw [h] at hok
    cases hok
    exact ⟨c2, p2, hs2,
      a_snl_le_aux (length + 1) _ _ _ _ _ (Nat.lt_succ_self _) ha⟩

theorem extensions_loop_consumes (fs : List (List Nat)) (hleg : legal_frags fs)
    {c p hl : Nat} {s : TlsHandshakeReader}
    {nm : List Nat} {s' : TlsHandshakeReader}
    (hs : Sim fs c p s)
    (h : extensions_loop s hl = .ok (nm, s')) :
    ∃ c' p', Sim fs c' p' s' ∧ p' ≤ p + hl := by
  have hsim := @sim_extensions_loop fs hleg hl c p s hs
  cases ha : a_extensions_loop (List.flatten fs) p hl with
  | error e =>
    rw [ha] at hsim
    have h2 : extensions_loop s hl = Except.error e := hsim
    rw [h] at h2
    cases h2
  | ok t =>
    obtain ⟨nm2, p2⟩ := t
    rw [ha] at hsim
    obtain ⟨c2, s2, hok, hs2⟩ := hsim
    rw [h] at hok
    cases hok
    exact ⟨c2, p2, hs2,
      a_ext_le_aux (hl + 1) _ _ _ _ _ (Nat.lt_succ_self _) ha⟩

/-- C6: `check_length` fails exactly on budget underflow, and then with
`decode_error`; such an error propagates so the client gets alert 50; and no
sub-parser reads past its enclosing length: over any legal framing, a
successful host-name entry read advances the handshake-stream position by
exactly its declared count, and successful `server_name_list` and
extensions-loop runs advance it by at most their length budgets. -/
theorem claim_C6 :
    (∀ length lim : Nat,
      (lim < length ↔ check_length length lim = .error .DecodeError) ∧
      (length ≤ lim → check_length length lim = .ok (lim - length))) ∧
    TlsError.code .DecodeError = 50 ∧
    (∀ (stream : List Nat) (loc remote : SocketAddr) (env : Env) (w : Bool),
      connect_backend stream loc remote env = .error .DecodeError →
      handle_connection stream loc remote env w =
        { clientWritten := [21, 3, 3, 0, 2, 2, 50], spliced := false }) ∧
    (∀ (fs : List (List Nat)), legal_frags fs →
      ∀ (c p n : Nat) (s : TlsHandshakeReader) (name : List Nat) (fl : Bool)
        (nm : List Nat) (fl' : Bool) (s' : TlsHandshakeReader),
      Sim fs c p s → read_name s n name fl = .ok (nm, fl', s') →
      ∃ c' p', Sim fs c' p' s' ∧ p' = p + n) ∧
    (∀ (fs : List (List Nat)), legal_frags fs →
      ∀ (c p length : Nat) (s : TlsHandshakeReader)
        (nm : List Nat) (s' : TlsHandshakeReader),
      Sim fs c p s → server_name_list s length = .ok (nm, s') →
      ∃ c' p', Sim fs c' p' s' ∧ p' ≤ p + length) ∧
    (∀ (fs : List (List Nat)), legal_frags fs →
      ∀ (c p hl : Nat) (s : TlsHandshakeReader)
        (nm : List Nat) (s' : TlsHandshakeReader),
      Sim fs c p s → extensions_loop s hl = .ok (nm, s') →
      ∃ c' p', Sim fs c' p' s' ∧ p' ≤ p + hl) := by
  refine ⟨?_, rfl, ?_, ?_, ?_, ?_⟩
  · intro length lim
    constructor
    · constructor
      · intro hlt
        unfold check_length
        rw [if_neg (by omega)]
      · intro he
        unfold check_length at he
        split at he
        · cases he
        · omega
    · intro hle
      unfold check_length
      rw [if_pos hle]
  · intro stream loc remote env w herr
    unfold handle_connection
    rw [herr]
    rfl
  · intro fs hleg c p n s name fl nm fl' s' hs h
    exact read_name_consumes fs hleg hs h
  · intro fs hleg c p length s nm s' hs h
    exact server_name_list_consumes fs hleg hs h
  · intro fs hleg c p hl s nm s' hs h
    exact extensions_loop_consumes fs hleg hs h

/-- C6 witness: a concrete underflow (`check_length 5 3`) yields
`decode_error`; an empty client stream propagates `decode_error` to the alert
`15 03 03 00 02 02 32`; and a concrete one-byte host-name read advances the
handshake stream by exactly one byte. -/
theorem claim_C6_witness :
    check_length 5 3 = .error .DecodeError ∧
    handle_connection [] (SocketAddr.V4 "198.51.100.1" 443)
      (SocketAddr.V4 "203.0.113.7" 51000)
      (Env.mk (fun _ => none) (fun _ => false) false false 0 0 0) false =
      { clientWritten := [21, 3, 3, 0, 2, 2, 50], spliced := false } ∧
    (∃ c' p', Sim [[97]] c' p'
        (TlsHandshakeReader.mk [] [22, 3, 3, 0, 1, 97] 6 6) ∧ p' = 0 + 1) := by
  refine ⟨((claim_C6.1 5 3).1).mp (by decide), ?_, ?_⟩
  · apply claim_C6.2.2.1
    unfold connect_backend
    dsimp only
    rw [if_neg (by decide), eval_empty]
  · apply claim_C6.2.2.2.1 [[97]] (by decide) 0 0 1
      (TlsHandshakeReader.new (frame [[97]])) [] true [97] false
      (TlsHandshakeReader.mk [] [22, 3, 3, 0, 1, 97] 6 6)
    · exact sim_new [[97]]
    · rw [read_name_exec_eq]
      decide
